import Mathlib

/-!
# Verification of the ChainEscapeLite contract (src/contracts/ChainEscapeLite.sol)

Shallow embedding of the contract's state and entry points.  Addresses,
`bytes32` values and `uint256` values are modelled as `Nat`; Solidity 0.8
checked arithmetic is modelled by `uadd`, which fails (reverts) when a sum
exceeds the `uint256` range.  Every external function is a total Lean
function from the pre-state and call context to `Except String ContractState`:
`.error` corresponds to a revert (no state change), `.ok` to a successful
call returning the post-state.
-/

/-- Largest value representable by a `uint256`. -/
def MAXU : Nat := 2 ^ 256 - 1

/-- Solidity 0.8 checked addition on `uint256`: reverts on overflow. -/
def uadd (a b : Nat) : Except String Nat :=
  if a + b ≤ MAXU then .ok (a + b) else .error "arithmetic overflow"

/-- Pointwise update of a map modelled as a function (Solidity `mapping`). -/
def updMap {β : Type} (f : Nat → β) (a : Nat) (v : β) : Nat → β :=
  fun x => if x = a then v else f x

/-- `enum GameState { NOT_STARTED, ACTIVE, ENDED }` -/
inductive GameState where
  | NOT_STARTED
  | ACTIVE
  | ENDED
deriving DecidableEq, Repr

/-- `struct Puzzle` -/
structure Puzzle where
  puzzleHash : Nat
  basePoints : Nat
  active : Bool
deriving DecidableEq, Repr

/-- `struct PlayerStats` -/
structure PlayerStats where
  score : Nat
  puzzleIndex : Nat
  claimedNFT : Bool
  isActivePlayer : Bool
  lastSolveTime : Nat
deriving DecidableEq, Repr

/-- The contract's storage, together with its own account address
(`address(this)`, used in the attestation hash). -/
structure ContractState where
  thisAddr : Nat
  owner : Nat
  avsAddress : Nat
  avsSigner : Nat
  puzzleCreators : Nat → Bool
  gameState : GameState
  gameStartTimestamp : Nat
  gameDuration : Nat
  puzzleCount : Nat
  puzzles : Nat → Puzzle
  allPlayers : List Nat
  playerStats : Nat → PlayerStats
  tokenIds : Nat
  minted : List (Nat × Nat)
  baseTokenURI : String
  finalRank : Nat → Nat

/-- Abstract model of the cryptographic primitives used by `submitResult`:
`keccak256(abi.encodePacked(address(this), player, puzzleId, correct,
timeRemaining))`, `ECDSA.toEthSignedMessageHash` and `ECDSA.recover`.
Signatures are opaque values (`Nat`). -/
structure SigEnv where
  keccakPacked : Nat → Nat → Nat → Bool → Nat → Nat
  toEthSigned : Nat → Nat
  ecrecover : Nat → Nat → Nat

/-- State right after the constructor runs (fresh deployment). -/
def initialState (thisAddr deployer : Nat) (uri : String) : ContractState where
  thisAddr := thisAddr
  owner := deployer
  avsAddress := 0
  avsSigner := 0
  puzzleCreators := fun _ => false
  gameState := GameState.NOT_STARTED
  gameStartTimestamp := 0
  gameDuration := 0
  puzzleCount := 0
  puzzles := fun _ => { puzzleHash := 0, basePoints := 0, active := false }
  allPlayers := []
  playerStats := fun _ =>
    { score := 0, puzzleIndex := 0, claimedNFT := false
      isActivePlayer := false, lastSolveTime := 0 }
  tokenIds := 0
  minted := []
  baseTokenURI := uri
  finalRank := fun _ => 0

/-- `setPuzzleCreator` (onlyOwner). -/
def setPuzzleCreator (st : ContractState) (msgSender creator : Nat)
    (isCreator : Bool) : Except String ContractState :=
  if msgSender ≠ st.owner then .error "Ownable: caller is not the owner"
  else .ok { st with puzzleCreators := updMap st.puzzleCreators creator isCreator }

/-- `setAvsAddress` (onlyOwner). -/
def setAvsAddress (st : ContractState) (msgSender a : Nat) :
    Except String ContractState :=
  if msgSender ≠ st.owner then .error "Ownable: caller is not the owner"
  else .ok { st with avsAddress := a }

/-- `setAvsSigner` (onlyOwner). -/
def setAvsSigner (st : ContractState) (msgSender a : Nat) :
    Except String ContractState :=
  if msgSender ≠ st.owner then .error "Ownable: caller is not the owner"
  else .ok { st with avsSigner := a }

/-- `startGame` (onlyOwner). -/
def startGame (st : ContractState) (msgSender blockTimestamp durationInSeconds : Nat) :
    Except String ContractState :=
  if msgSender ≠ st.owner then .error "Ownable: caller is not the owner"
  else if st.gameState = GameState.ACTIVE then .error "Game is already active"
  else if st.gameState = GameState.ENDED then .error "Game has already ended"
  else .ok { st with gameDuration := durationInSeconds
                     gameStartTimestamp := blockTimestamp
                     gameState := GameState.ACTIVE }

/-- `endGame` (onlyOwner). -/
def endGame (st : ContractState) (msgSender : Nat) : Except String ContractState :=
  if msgSender ≠ st.owner then .error "Ownable: caller is not the owner"
  else if st.gameState ≠ GameState.ACTIVE then .error "Game not active"
  else .ok { st with gameState := GameState.ENDED }

/-- `setPuzzleHash` (onlyPuzzleCreator): writes the puzzle entry with
`active = true` and extends `puzzleCount` when the id is new. -/
def setPuzzleHash (st : ContractState) (msgSender puzzleId hash basePoints : Nat) :
    Except String ContractState :=
  if ¬ (st.puzzleCreators msgSender = true ∨ msgSender = st.owner) then
    .error "Not a puzzle creator nor owner"
  else
    let p : Puzzle := { puzzleHash := hash, basePoints := basePoints, active := true }
    let st1 := { st with puzzles := updMap st.puzzles puzzleId p }
    if puzzleId ≥ st.puzzleCount then
      match uadd puzzleId 1 with
      | .error e => .error e
      | .ok newCount => .ok { st1 with puzzleCount := newCount }
    else .ok st1

/-- `submitResult`: the `onlyWhenActive` modifier, the relay-caller check,
the judge-signature check, the lazy roster append, the sequencing and
puzzle-active checks, then the score update. -/
def submitResult (env : SigEnv) (st : ContractState)
    (msgSender blockTimestamp player puzzleId : Nat)
    (correct : Bool) (timeRemaining signature : Nat) :
    Except String ContractState :=
  -- modifier onlyWhenActive
  if st.gameState ≠ GameState.ACTIVE then .error "Game is not active"
  else match uadd st.gameStartTimestamp st.gameDuration with
  | .error e => .error e
  | .ok deadline =>
    if ¬ blockTimestamp ≤ deadline then .error "Time is up"
    -- 1) Ensure the caller is the AVS transaction address
    else if msgSender ≠ st.avsAddress then .error "Caller is not AVS address"
    else
      -- 2) Verify the signature from avsSigner
      let messageHash := env.keccakPacked st.thisAddr player puzzleId correct timeRemaining
      let ethSignedHash := env.toEthSigned messageHash
      let recovered := env.ecrecover ethSignedHash signature
      if recovered ≠ st.avsSigner then .error "Invalid AVS signature"
      else
        -- 3) Check puzzle logic; mark them active if first time
        let stats0 := st.playerStats player
        let stats := if stats0.isActivePlayer then stats0
                     else { stats0 with isActivePlayer := true }
        let st1 := if stats0.isActivePlayer then st
                   else { st with playerStats := updMap st.playerStats player stats
                                  allPlayers := st.allPlayers ++ [player] }
        if puzzleId ≠ stats.puzzleIndex then .error "Wrong puzzle index"
        else
          let puzzle := st1.puzzles puzzleId
          if puzzle.active ≠ true then .error "Puzzle not active"
          else if correct then
            match uadd puzzle.basePoints (timeRemaining / 60) with
            | .error e => .error e
            | .ok pointsAwarded =>
              match uadd stats.score pointsAwarded with
              | .error e => .error e
              | .ok newScore =>
                match uadd stats.puzzleIndex 1 with
                | .error e => .error e
                | .ok newIndex =>
                  let stats2 := { stats with score := newScore
                                             puzzleIndex := newIndex
                                             lastSolveTime := blockTimestamp }
                  .ok { st1 with playerStats := updMap st1.playerStats player stats2 }
          else
            let newScore := if stats.score ≥ 2 then stats.score - 2 else 0
            let stats2 := { stats with score := newScore }
            .ok { st1 with playerStats := updMap st1.playerStats player stats2 }

/-- `isBetter`: three-key comparator — score descending, puzzleIndex
descending, lastSolveTime ascending. -/
def isBetter (s : Nat → PlayerStats) (a b : Nat) : Bool :=
  if (s a).score > (s b).score then true
  else if (s a).score < (s b).score then false
  else if (s a).puzzleIndex > (s b).puzzleIndex then true
  else if (s a).puzzleIndex < (s b).puzzleIndex then false
  else if (s a).lastSolveTime < (s b).lastSolveTime then true
  else if (s a).lastSolveTime > (s b).lastSolveTime then false
  else false

/-- `areTied`: identical (score, puzzleIndex, lastSolveTime). -/
def areTied (s : Nat → PlayerStats) (a b : Nat) : Bool :=
  decide ((s a).score = (s b).score) &&
  decide ((s a).puzzleIndex = (s b).puzzleIndex) &&
  decide ((s a).lastSolveTime = (s b).lastSolveTime)

/-- In-memory swap of two positions of the sorted roster copy.  Both indices
are in bounds at every use inside the sort. -/
def swapL (l : List Nat) (i j : Nat) : List Nat :=
  if i < l.length then
    if j < l.length then (l.set i (l.getD j 0)).set j (l.getD i 0)
    else l
  else l

/-- `swapL` preserves the length of the roster copy. -/
theorem length_swapL (l : List Nat) (i j : Nat) : (swapL l i j).length = l.length := by
  unfold swapL
  split
  · split
    · simp
    · rfl
  · rfl

/-- Inner loop of the bubble sort of `finalizeRanks`:
`for (j = i+1; j < length; j++) if (isBetter(arr[j], arr[i])) swap(i, j)`. -/
def innerLoop (s : Nat → PlayerStats) (arr : List Nat) (i j : Nat) : List Nat :=
  if _h : j < arr.length then
    innerLoop s
      (if isBetter s (arr.getD j 0) (arr.getD i 0) then swapL arr i j else arr)
      i (j + 1)
  else arr
termination_by arr.length - j
decreasing_by
  split <;> simp [length_swapL] <;> omega

/-- `innerLoop` preserves the length of the roster copy. -/
theorem length_innerLoop (s : Nat → PlayerStats) (i : Nat) (arr : List Nat) (j : Nat) :
    (innerLoop s arr i j).length = arr.length := by
  generalize hn : arr.length - j = n
  induction n generalizing arr j with
  | zero =>
    rw [innerLoop]
    have : ¬ j < arr.length := by omega
    simp [this]
  | succ n ih =>
    rw [innerLoop]
    split
    · rename_i hj
      have hlen : (if isBetter s (arr.getD j 0) (arr.getD i 0) then
          swapL arr i j else arr).length = arr.length := by
        split
        · exact length_swapL arr i j
        · rfl
      rw [ih _ (j + 1) (by rw [hlen]; omega), hlen]
    · rfl

/-- Outer loop of the bubble sort: `for (i = 0; i < length; i++)`. -/
def outerLoop (s : Nat → PlayerStats) (arr : List Nat) (i : Nat) : List Nat :=
  if _h : i < arr.length then
    outerLoop s (innerLoop s arr i (i + 1)) (i + 1)
  else arr
termination_by arr.length - i
decreasing_by
  simp [length_innerLoop]
  omega

/-- Rank value written at each sorted position: position `0` gets rank 1;
position `k+1` gets position `k`'s value when tied with it, else `k + 2`
(its 1-based position). -/
def rankVal (s : Nat → PlayerStats) (sorted : List Nat) : Nat → Nat
  | 0 => 1
  | k + 1 =>
    if areTied s (sorted.getD (k + 1) 0) (sorted.getD k 0) then rankVal s sorted k
    else k + 2

/-- Rank-assignment loop of `finalizeRanks`:
`for (k = 1; k < length; k++) finalRank[sorted[k]] := tied ? finalRank[sorted[k-1]] : k+1`. -/
def rankLoop (s : Nat → PlayerStats) (sorted : List Nat) (fr : Nat → Nat) (k : Nat) :
    Nat → Nat :=
  if _h : k < sorted.length then
    rankLoop s sorted
      (updMap fr (sorted.getD k 0)
        (if areTied s (sorted.getD k 0) (sorted.getD (k - 1) 0) then
          fr (sorted.getD (k - 1) 0)
        else k + 1))
      (k + 1)
  else fr
termination_by sorted.length - k

/-- `finalizeRanks`: gate on game over, copy the roster, bubble sort it,
then assign competition-style ranks.  An empty roster makes the
`sortedPlayers[0]` access panic (revert). -/
def finalizeRanks (st : ContractState) (blockTimestamp : Nat) :
    Except String ContractState :=
  let gameOver : Except String Unit :=
    if st.gameState = GameState.ENDED then .ok ()
    else match uadd st.gameStartTimestamp st.gameDuration with
    | .error e => .error e
    | .ok deadline =>
      if blockTimestamp > deadline then .ok () else .error "Game not ended yet"
  match gameOver with
  | .error e => .error e
  | .ok _ =>
    let sortedPlayers := outerLoop st.playerStats st.allPlayers 0
    if 0 < sortedPlayers.length then
      let fr0 := updMap st.finalRank (sortedPlayers.getD 0 0) 1
      .ok { st with finalRank := rankLoop st.playerStats sortedPlayers fr0 1 }
    else .error "panic: array index out of bounds"

/-- `claimNFT`: gate on game over, require an assigned rank, require not yet
claimed; then mark claimed and mint token id `_tokenIds + 1` (ERC721
`_safeMint`, which itself rejects the zero address and duplicate ids). -/
def claimNFT (st : ContractState) (msgSender blockTimestamp : Nat) :
    Except String ContractState :=
  let gameOver : Except String Unit :=
    if st.gameState = GameState.ENDED then .ok ()
    else match uadd st.gameStartTimestamp st.gameDuration with
    | .error e => .error e
    | .ok deadline =>
      if blockTimestamp > deadline then .ok () else .error "Game not ended yet"
  match gameOver with
  | .error e => .error e
  | .ok _ =>
    if ¬ st.finalRank msgSender > 0 then
      .error "Rank not assigned yet. finalizeRanks first."
    else
      let stats := st.playerStats msgSender
      if stats.claimedNFT then .error "Already claimed NFT"
      else match uadd st.tokenIds 1 with
      | .error e => .error e
      | .ok newTokenId =>
        if msgSender = 0 then .error "ERC721: mint to the zero address"
        else if st.minted.any (fun t => t.1 = newTokenId) then
          .error "ERC721: token already minted"
        else
          let stats2 := { stats with claimedNFT := true }
          .ok { st with
                playerStats := updMap st.playerStats msgSender stats2
                tokenIds := newTokenId
                minted := (newTokenId, msgSender) :: st.minted }

/-- One external call with its full context (sender, block timestamp,
arguments), covering every state-mutating entry point. -/
inductive Call where
  | setPuzzleCreator (msgSender creator : Nat) (isCreator : Bool)
  | setAvsAddress (msgSender a : Nat)
  | setAvsSigner (msgSender a : Nat)
  | startGame (msgSender blockTimestamp durationInSeconds : Nat)
  | endGame (msgSender : Nat)
  | setPuzzleHash (msgSender puzzleId hash basePoints : Nat)
  | submitResult (msgSender blockTimestamp player puzzleId : Nat)
      (correct : Bool) (timeRemaining signature : Nat)
  | finalizeRanks (blockTimestamp : Nat)
  | claimNFT (msgSender blockTimestamp : Nat)

/-- Execute one call, returning the revert message or the post-state. -/
def applyCallE (env : SigEnv) (c : Call) (st : ContractState) :
    Except String ContractState :=
  match c with
  | .setPuzzleCreator ms cr b => setPuzzleCreator st ms cr b
  | .setAvsAddress ms a => setAvsAddress st ms a
  | .setAvsSigner ms a => setAvsSigner st ms a
  | .startGame ms bt d => startGame st ms bt d
  | .endGame ms => endGame st ms
  | .setPuzzleHash ms pid h bp => setPuzzleHash st ms pid h bp
  | .submitResult ms bt pl pid c tr sig => submitResult env st ms bt pl pid c tr sig
  | .finalizeRanks bt => finalizeRanks st bt
  | .claimNFT ms bt => claimNFT st ms bt

/-- Transaction semantics: a reverted call leaves the state unchanged. -/
def applyCall (env : SigEnv) (c : Call) (st : ContractState) : ContractState :=
  match applyCallE env c st with
  | .ok st' => st'
  | .error _ => st

/-- A sequence of transactions applied in ledger order. -/
def applyTrace (env : SigEnv) (cs : List Call) (st : ContractState) : ContractState :=
  match cs with
  | [] => st
  | c :: rest => applyTrace env rest (applyCall env c st)

/-! ## Properties of the three-key comparator -/

/-- Unfolding of `isBetter` into the lexicographic order on
(score desc, puzzleIndex desc, lastSolveTime asc). -/
theorem isBetter_iff (s : Nat → PlayerStats) (a b : Nat) :
    isBetter s a b = true ↔
      (s b).score < (s a).score ∨
      ((s a).score = (s b).score ∧
        ((s b).puzzleIndex < (s a).puzzleIndex ∨
          ((s a).puzzleIndex = (s b).puzzleIndex ∧
            (s a).lastSolveTime < (s b).lastSolveTime))) := by
  unfold isBetter
  split_ifs <;> simp <;> omega

/-- Unfolding of `areTied` into equality of the three keys. -/
theorem areTied_iff (s : Nat → PlayerStats) (a b : Nat) :
    areTied s a b = true ↔
      (s a).score = (s b).score ∧ (s a).puzzleIndex = (s b).puzzleIndex ∧
      (s a).lastSolveTime = (s b).lastSolveTime := by
  unfold areTied
  simp [and_assoc]

theorem areTied_refl (s : Nat → PlayerStats) (a : Nat) : areTied s a a = true := by
  rw [areTied_iff]
  exact ⟨rfl, rfl, rfl⟩

theorem areTied_symm (s : Nat → PlayerStats) {a b : Nat}
    (h : areTied s a b = true) : areTied s b a = true := by
  rw [areTied_iff] at *
  omega

theorem areTied_trans (s : Nat → PlayerStats) {a b c : Nat}
    (h1 : areTied s a b = true) (h2 : areTied s b c = true) : areTied s a c = true := by
  rw [areTied_iff] at *
  omega

theorem isBetter_asymm (s : Nat → PlayerStats) {a b : Nat}
    (h : isBetter s a b = true) : isBetter s b a = false := by
  rw [Bool.eq_false_iff]
  intro h2
  rw [isBetter_iff] at *
  omega

theorem isBetter_trans (s : Nat → PlayerStats) {a b c : Nat}
    (h1 : isBetter s a b = true) (h2 : isBetter s b c = true) :
    isBetter s a c = true := by
  rw [isBetter_iff] at *
  omega

/-- Two players neither of whom beats the other are tied. -/
theorem areTied_of_not_isBetter (s : Nat → PlayerStats) {a b : Nat}
    (h1 : isBetter s a b = false) (h2 : isBetter s b a = false) :
    areTied s a b = true := by
  rw [Bool.eq_false_iff] at h1 h2
  rw [areTied_iff]
  by_contra hc
  apply h1
  rw [isBetter_iff]
  by_cases hba : isBetter s b a = true
  · exact absurd hba h2
  · rw [isBetter_iff] at hba
    omega

/-- Tied players compare identically against any third player (left). -/
theorem isBetter_congr_left (s : Nat → PlayerStats) {a b : Nat} (c : Nat)
    (h : areTied s a b = true) : isBetter s a c = isBetter s b c := by
  rw [areTied_iff] at h
  have hiff : isBetter s a c = true ↔ isBetter s b c = true := by
    rw [isBetter_iff, isBetter_iff]
    omega
  cases hac : isBetter s a c <;> cases hbc : isBetter s b c <;> simp_all

/-- Tied players compare identically against any third player (right). -/
theorem isBetter_congr_right (s : Nat → PlayerStats) {a b : Nat} (c : Nat)
    (h : areTied s a b = true) : isBetter s c a = isBetter s c b := by
  rw [areTied_iff] at h
  have hiff : isBetter s c a = true ↔ isBetter s c b = true := by
    rw [isBetter_iff, isBetter_iff]
    omega
  cases hac : isBetter s c a <;> cases hbc : isBetter s c b <;> simp_all

/-! ## Swap and permutation lemmas for the sorted roster copy -/

/-- Bridge between `getD` with the in-range index and `getElem`. -/
theorem getD_eq_getElem_nat (l : List Nat) (k : Nat) (h : k < l.length) :
    l.getD k 0 = l[k] := by
  simp [List.getD_eq_getElem?_getD, List.getElem?_eq_getElem h]

theorem getD_swapL_left (l : List Nat) {i j : Nat} (hi : i < l.length)
    (hj : j < l.length) : (swapL l i j).getD i 0 = l.getD j 0 := by
  unfold swapL
  simp only [hi, hj, if_true]
  by_cases hij : i = j
  · subst hij
    rw [getD_eq_getElem_nat _ _ (by simpa using hi)]
    simp
  · rw [getD_eq_getElem_nat _ _ (by simpa using hi)]
    rw [List.getElem_set_ne (by omega), List.getElem_set_self]

theorem getD_swapL_right (l : List Nat) {i j : Nat} (hi : i < l.length)
    (hj : j < l.length) : (swapL l i j).getD j 0 = l.getD i 0 := by
  unfold swapL
  simp only [hi, hj, if_true]
  rw [getD_eq_getElem_nat _ _ (by simpa using hj)]
  simp

theorem getD_swapL_ne (l : List Nat) {i j k : Nat} (hki : k ≠ i) (hkj : k ≠ j) :
    (swapL l i j).getD k 0 = l.getD k 0 := by
  unfold swapL
  split
  · split
    · by_cases hk : k < l.length
      · rw [getD_eq_getElem_nat _ _ (by simpa using hk),
          List.getElem_set_ne (by omega), List.getElem_set_ne (by omega),
          getD_eq_getElem_nat _ _ hk]
      · have h1 : l.length ≤ k := by omega
        have h2 : ((l.set i (l.getD j 0)).set j (l.getD i 0)).length ≤ k := by
          simpa using h1
        have hg1 : l.getD k 0 = 0 := by
          rw [List.getD_eq_getElem?_getD, List.getElem?_eq_none h1]
          rfl
        have hg2 : ((l.set i (l.getD j 0)).set j (l.getD i 0)).getD k 0 = 0 := by
          rw [List.getD_eq_getElem?_getD, List.getElem?_eq_none h2]
          rfl
        rw [hg1, hg2]
    · rfl
  · rfl

/-- Moving the element at position `m` to the head while writing `a` at
position `m` is a permutation of putting `a` at the head. -/
theorem cons_set_perm : ∀ (t : List Nat) (m : Nat), m < t.length → ∀ (a : Nat),
    (t.getD m 0 :: t.set m a).Perm (a :: t) := by
  intro t
  induction t with
  | nil => intro m hm; simp at hm
  | cons b t' ih =>
    intro m hm a
    match m with
    | 0 => simpa using List.Perm.swap a b t'
    | k + 1 =>
      simp only [List.getD_cons_succ, List.set_cons_succ]
      refine List.Perm.trans (List.Perm.swap _ _ _) ?_
      refine List.Perm.trans (List.Perm.cons b (ih k (by simpa using hm) a)) ?_
      exact List.Perm.swap _ _ _

/-- The double `set` implementing a swap is a permutation. -/
theorem set_set_perm : ∀ (l : List Nat) (i j : Nat), i < l.length → j < l.length →
    ((l.set i (l.getD j 0)).set j (l.getD i 0)).Perm l := by
  intro l
  induction l with
  | nil => intro i j hi; simp at hi
  | cons a t ih =>
    intro i j hi hj
    match i, j with
    | 0, 0 => simp
    | 0, m + 1 =>
      simp only [List.getD_cons_zero, List.getD_cons_succ, List.set_cons_zero,
        List.set_cons_succ]
      exact cons_set_perm t m (by simpa using hj) a
    | k + 1, 0 =>
      simp only [List.getD_cons_zero, List.getD_cons_succ, List.set_cons_zero,
        List.set_cons_succ]
      exact cons_set_perm t k (by simpa using hi) a
    | k + 1, m + 1 =>
      simp only [List.getD_cons_succ, List.set_cons_succ]
      exact List.Perm.cons a (ih k m (by simpa using hi) (by simpa using hj))

/-- `swapL` permutes the list. -/
theorem swapL_perm (l : List Nat) (i j : Nat) : (swapL l i j).Perm l := by
  unfold swapL
  split
  · split
    · exact set_set_perm l i j (by assumption) (by assumption)
    · exact List.Perm.refl l
  · exact List.Perm.refl l

/-! ## Behaviour of the sort's inner loop -/

/-- Positions below `j` other than the pivot `i` are untouched by the inner loop. -/
theorem innerLoop_getD_lt (s : Nat → PlayerStats) (i k : Nat) (hki : k ≠ i) :
    ∀ (arr : List Nat) (j : Nat), k < j →
    (innerLoop s arr i j).getD k 0 = arr.getD k 0 := by
  intro arr j
  generalize hn : arr.length - j = n
  induction n generalizing arr j with
  | zero =>
    intro _hkj
    rw [innerLoop]
    have : ¬ j < arr.length := by omega
    simp [this]
  | succ n ih =>
    intro hkj
    rw [innerLoop]
    split
    · rename_i hj
      have hlen : (if isBetter s (arr.getD j 0) (arr.getD i 0) then
          swapL arr i j else arr).length = arr.length := by
        split
        · exact length_swapL arr i j
        · rfl
      rw [ih _ (j + 1) (by rw [hlen]; omega) (by omega)]
      split
      · exact getD_swapL_ne arr hki (by omega)
      · rfl
    · rfl

/-- The inner loop permutes the roster copy. -/
theorem innerLoop_perm (s : Nat → PlayerStats) (i : Nat) :
    ∀ (arr : List Nat) (j : Nat), (innerLoop s arr i j).Perm arr := by
  intro arr j
  generalize hn : arr.length - j = n
  induction n generalizing arr j with
  | zero =>
    rw [innerLoop]
    have : ¬ j < arr.length := by omega
    simp [this]
  | succ n ih =>
    rw [innerLoop]
    split
    · rename_i hj
      have hlen : (if isBetter s (arr.getD j 0) (arr.getD i 0) then
          swapL arr i j else arr).length = arr.length := by
        split
        · exact length_swapL arr i j
        · rfl
      refine List.Perm.trans (ih _ (j + 1) (by rw [hlen]; omega)) ?_
      split
      · exact swapL_perm arr i j
      · exact List.Perm.refl arr
    · exact List.Perm.refl arr

/-- Two lists of the same length agreeing position-wise below `i` have equal
`take i` prefixes. -/
theorem take_eq_of_getD (l1 l2 : List Nat) (i : Nat) (hlen : l1.length = l2.length)
    (h : ∀ k, k < i → l1.getD k 0 = l2.getD k 0) : l1.take i = l2.take i := by
  apply List.ext_getElem (by simp [hlen])
  intro k h1 h2
  have hk : k < i := by simp at h1; omega
  have hk1 : k < l1.length := by simp at h1; omega
  have hk2 : k < l2.length := by simp at h2; omega
  rw [List.getElem_take l1, List.getElem_take l2]
  rw [← getD_eq_getElem_nat _ _ hk1, ← getD_eq_getElem_nat _ _ hk2]
  exact h k hk

/-- A permutation with an identical prefix restricts to a permutation of the
suffixes. -/
theorem drop_perm_of (l1 l2 : List Nat) (i : Nat) (hperm : l1.Perm l2)
    (htake : l1.take i = l2.take i) : (l1.drop i).Perm (l2.drop i) := by
  have hp : (l1.take i ++ l1.drop i).Perm (l1.take i ++ l2.drop i) := by
    rw [List.take_append_drop, htake, List.take_append_drop]
    exact hperm
  exact (List.perm_append_left_iff (l1.take i)).mp hp

/-- `getD` after `drop` reads the shifted position. -/
theorem getD_drop (l : List Nat) (i m : Nat) :
    (l.drop i).getD m 0 = l.getD (i + m) 0 := by
  by_cases h : i + m < l.length
  · rw [getD_eq_getElem_nat _ _ (by simp; omega), getD_eq_getElem_nat _ _ h]
    exact List.getElem_drop l
  · have h1 : l.length ≤ i + m := by omega
    have h2 : (l.drop i).length ≤ m := by simp; omega
    have hg1 : l.getD (i + m) 0 = 0 := by
      rw [List.getD_eq_getElem?_getD, List.getElem?_eq_none h1]
      rfl
    have hg2 : (l.drop i).getD m 0 = 0 := by
      rw [List.getD_eq_getElem?_getD, List.getElem?_eq_none h2]
      rfl
    rw [hg1, hg2]

/-- After the inner loop starting at `j`, no position after the pivot beats
the pivot, provided no position in `(i, j)` did before. -/
theorem innerLoop_post (s : Nat → PlayerStats) (i : Nat) :
    ∀ (arr : List Nat) (j : Nat), i < j → i < arr.length →
    (∀ k, i < k → k < j → isBetter s (arr.getD k 0) (arr.getD i 0) = false) →
    ∀ k, i < k → k < arr.length →
      isBetter s ((innerLoop s arr i j).getD k 0)
        ((innerLoop s arr i j).getD i 0) = false := by
  intro arr j
  generalize hn : arr.length - j = n
  induction n generalizing arr j with
  | zero =>
    intro _hij _hi pre k hk hkl
    rw [innerLoop]
    have hj : ¬ j < arr.length := by omega
    simp only [hj, dite_false]
    exact pre k hk (by omega)
  | succ n ih =>
    intro hij hi pre k hk hkl
    rw [innerLoop]
    split
    · rename_i hj
      have hlen : (if isBetter s (arr.getD j 0) (arr.getD i 0) then
          swapL arr i j else arr).length = arr.length := by
        split
        · exact length_swapL arr i j
        · rfl
      refine ih _ (j + 1) (by rw [hlen]; omega) (by omega) (by rw [hlen]; exact hi)
        ?_ k hk (by rw [hlen]; exact hkl)
      intro k' hk1 hk2
      by_cases hb : isBetter s (arr.getD j 0) (arr.getD i 0) = true
      · simp only [hb, if_true]
        rw [getD_swapL_left arr hi hj]
        by_cases hkj : k' = j
        · subst hkj
          rw [getD_swapL_right arr hi hj]
          exact isBetter_asymm s hb
        · rw [getD_swapL_ne arr (by omega) hkj]
          rw [Bool.eq_false_iff]
          intro hbad
          have := isBetter_trans s hbad hb
          rw [pre k' hk1 (by omega)] at this
          exact Bool.false_ne_true this
      · rw [Bool.not_eq_true] at hb
        simp only [hb, if_false]
        by_cases hkj : k' = j
        · subst hkj
          exact hb
        · exact pre k' hk1 (by omega)
    · exact pre k hk (by omega)

/-! ## Behaviour of the sort's outer loop -/

/-- `outerLoop` preserves the length of the roster copy. -/
theorem length_outerLoop (s : Nat → PlayerStats) :
    ∀ (arr : List Nat) (i : Nat), (outerLoop s arr i).length = arr.length := by
  intro arr i
  generalize hn : arr.length - i = n
  induction n generalizing arr i with
  | zero =>
    rw [outerLoop]
    have : ¬ i < arr.length := by omega
    simp [this]
  | succ n ih =>
    rw [outerLoop]
    split
    · rename_i hi
      rw [ih _ (i + 1) (by rw [length_innerLoop]; omega), length_innerLoop]
    · rfl

/-- The sorted roster copy is a permutation of the roster. -/
theorem outerLoop_perm (s : Nat → PlayerStats) :
    ∀ (arr : List Nat) (i : Nat), (outerLoop s arr i).Perm arr := by
  intro arr i
  generalize hn : arr.length - i = n
  induction n generalizing arr i with
  | zero =>
    rw [outerLoop]
    have : ¬ i < arr.length := by omega
    simp [this]
  | succ n ih =>
    rw [outerLoop]
    split
    · rename_i hi
      exact List.Perm.trans (ih _ (i + 1) (by rw [length_innerLoop]; omega))
        (innerLoop_perm s i arr (i + 1))
    · exact List.Perm.refl arr

/-- Invariant of the outer loop: every position below `i` is unbeaten by
every later position. -/
def InvUpTo (s : Nat → PlayerStats) (arr : List Nat) (i : Nat) : Prop :=
  ∀ p q, p < i → p < q → q < arr.length →
    isBetter s (arr.getD q 0) (arr.getD p 0) = false

/-- The roster copy is sorted: no later position beats an earlier one. -/
def SortedRoster (s : Nat → PlayerStats) (l : List Nat) : Prop :=
  ∀ p q, p < q → q < l.length → isBetter s (l.getD q 0) (l.getD p 0) = false

/-- The outer loop extends the sortedness invariant to the whole list. -/
theorem outerLoop_inv (s : Nat → PlayerStats) :
    ∀ (arr : List Nat) (i : Nat), InvUpTo s arr i →
    InvUpTo s (outerLoop s arr i) (outerLoop s arr i).length := by
  intro arr i
  generalize hn : arr.length - i = n
  induction n generalizing arr i with
  | zero =>
    intro inv
    rw [outerLoop]
    have hi : ¬ i < arr.length := by omega
    simp only [hi, dite_false]
    intro p q hp hpq hq
    exact inv p q (by omega) hpq hq
  | succ n ih =>
    intro inv
    rw [outerLoop]
    split
    · rename_i hi
      have hlen : (innerLoop s arr i (i + 1)).length = arr.length :=
        length_innerLoop s i arr (i + 1)
      refine ih _ (i + 1) (by rw [hlen]; omega) ?_
      intro p q hp hpq hq
      rw [hlen] at hq
      by_cases hpi : p < i
      · have hpfix : (innerLoop s arr i (i + 1)).getD p 0 = arr.getD p 0 :=
          innerLoop_getD_lt s i p (by omega) arr (i + 1) (by omega)
        by_cases hq2 : q < i
        · rw [hpfix, innerLoop_getD_lt s i q (by omega) arr (i + 1) (by omega)]
          exact inv p q hpi hpq hq
        · -- q ≥ i: the element at q comes from the original suffix from i
          have hdp : ((innerLoop s arr i (i + 1)).drop i).Perm (arr.drop i) := by
            refine drop_perm_of _ _ i (innerLoop_perm s i arr (i + 1)) ?_
            refine take_eq_of_getD _ _ i hlen ?_
            intro k hk
            exact innerLoop_getD_lt s i k (by omega) arr (i + 1) (by omega)
          have hx : (innerLoop s arr i (i + 1)).getD q 0 =
              ((innerLoop s arr i (i + 1)).drop i).getD (q - i) 0 := by
            rw [getD_drop]
            congr 1
            omega
          have hmem : ((innerLoop s arr i (i + 1)).drop i).getD (q - i) 0 ∈
              (innerLoop s arr i (i + 1)).drop i := by
            rw [getD_eq_getElem_nat _ _ (by simp [hlen]; omega)]
            exact List.getElem_mem _
          have hmem2 : (innerLoop s arr i (i + 1)).getD q 0 ∈ arr.drop i := by
            rw [hx]
            exact hdp.mem_iff.mp hmem
          rcases List.mem_iff_getElem.mp hmem2 with ⟨m, hm, hgm⟩
          have hq0 : i + m < arr.length := by simp at hm; omega
          have hval : arr.getD (i + m) 0 = (innerLoop s arr i (i + 1)).getD q 0 := by
            rw [← getD_drop, getD_eq_getElem_nat _ _ hm]
            exact hgm
          rw [hpfix, ← hval]
          exact inv p (i + m) hpi (by omega) hq0
      · -- p = i: exactly the inner-loop postcondition
        have hpi2 : p = i := by omega
        subst hpi2
        exact innerLoop_post s p arr (p + 1) (by omega) hi
          (by intro k hk1 hk2; omega) q hpq hq
    · intro p q hp hpq hq
      exact inv p q (by omega) hpq hq

/-- The full bubble sort sorts the roster copy under the comparator. -/
theorem outerLoop_sorted (s : Nat → PlayerStats) (arr : List Nat) :
    SortedRoster s (outerLoop s arr 0) := by
  have h := outerLoop_inv s arr 0 (by intro p q hp; omega)
  intro p q hpq hq
  exact h p q (by omega) hpq hq

/-! ## Behaviour of the rank-assignment loop -/

theorem isBetter_irrefl (s : Nat → PlayerStats) (a : Nat) : isBetter s a a = false := by
  rw [Bool.eq_false_iff]
  intro h
  rw [isBetter_iff] at h
  omega

/-- In a sorted roster, tied positions carry the same rank value: rank
values are constant on each tied block. -/
theorem rankVal_congr (s : Nat → PlayerStats) (sorted : List Nat)
    (hsort : SortedRoster s sorted) :
    ∀ (d i j : Nat), j = i + d → j < sorted.length →
    areTied s (sorted.getD i 0) (sorted.getD j 0) = true →
    rankVal s sorted i = rankVal s sorted j := by
  intro d
  induction d with
  | zero =>
    intro i j hij _ _
    have hji : j = i := by omega
    rw [hji]
  | succ d ih =>
    intro i j hij hj htied
    have hij' : j = i + d + 1 := by omega
    have hprev1 : isBetter s (sorted.getD (i + d) 0) (sorted.getD i 0) = false := by
      rcases Nat.eq_or_lt_of_le (show i ≤ i + d by omega) with heq | hlt
      · rw [← heq]
        exact isBetter_irrefl s _
      · exact hsort i (i + d) hlt (by omega)
    have hprev2 : isBetter s (sorted.getD i 0) (sorted.getD (i + d) 0) = false := by
      rw [Bool.eq_false_iff]
      intro hbad
      have hcongr := isBetter_congr_left s (sorted.getD (i + d) 0) htied
      rw [hcongr] at hbad
      have h2 := hsort (i + d) j (by omega) hj
      rw [h2] at hbad
      exact Bool.false_ne_true hbad
    have htied1 : areTied s (sorted.getD i 0) (sorted.getD (i + d) 0) = true :=
      areTied_of_not_isBetter s hprev2 hprev1
    have htied2 : areTied s (sorted.getD (i + d) 0) (sorted.getD j 0) = true :=
      areTied_trans s (areTied_symm s htied1) htied
    have hstep : rankVal s sorted (i + d + 1) = rankVal s sorted (i + d) := by
      have hcond : areTied s (sorted.getD (i + d + 1) 0) (sorted.getD (i + d) 0) = true := by
        rw [← hij']
        exact areTied_symm s htied2
      simp only [rankVal, hcond, if_true]
    rw [hij', hstep]
    exact ih i (i + d) rfl (by omega) htied1

/-- Addresses that never occur in the sorted roster keep their old rank. -/
theorem rankLoop_off (s : Nat → PlayerStats) (sorted : List Nat) :
    ∀ (fr : Nat → Nat) (k a : Nat),
    (∀ m, m < sorted.length → sorted.getD m 0 ≠ a) →
    rankLoop s sorted fr k a = fr a := by
  intro fr k
  generalize hn : sorted.length - k = n
  induction n generalizing fr k with
  | zero =>
    intro a _ha
    rw [rankLoop]
    have : ¬ k < sorted.length := by omega
    simp [this]
  | succ n ih =>
    intro a ha
    rw [rankLoop]
    split
    · rename_i hk
      rw [ih _ (k + 1) (by omega) a ha]
      unfold updMap
      rw [if_neg (fun h => (ha k hk) h.symm)]
    · rfl

/-- Every address in the sorted roster ends with the rank value of (any of)
its positions, provided positions below `k` already carry their values. -/
theorem rankLoop_mem (s : Nat → PlayerStats) (sorted : List Nat)
    (hsort : SortedRoster s sorted) :
    ∀ (fr : Nat → Nat) (k : Nat), 1 ≤ k →
    (∀ m, m < k → m < sorted.length → fr (sorted.getD m 0) = rankVal s sorted m) →
    ∀ m, m < sorted.length →
    rankLoop s sorted fr k (sorted.getD m 0) = rankVal s sorted m := by
  intro fr k
  generalize hn : sorted.length - k = n
  induction n generalizing fr k with
  | zero =>
    intro _hk hfr m hm
    rw [rankLoop]
    have : ¬ k < sorted.length := by omega
    simp only [this, dite_false]
    exact hfr m (by omega) hm
  | succ n ih =>
    intro hk hfr m hm
    rw [rankLoop]
    split
    · rename_i hklt
      have hprev : fr (sorted.getD (k - 1) 0) = rankVal s sorted (k - 1) :=
        hfr (k - 1) (by omega) (by omega)
      have hv : (if areTied s (sorted.getD k 0) (sorted.getD (k - 1) 0) then
          fr (sorted.getD (k - 1) 0) else k + 1) = rankVal s sorted k := by
        have hk1 : k - 1 + 1 = k := by omega
        have hrv : rankVal s sorted (k - 1 + 1) =
            if areTied s (sorted.getD (k - 1 + 1) 0) (sorted.getD (k - 1) 0) then
              rankVal s sorted (k - 1) else (k - 1) + 2 := rfl
        rw [hk1] at hrv
        rw [hrv, show k - 1 + 2 = k + 1 from by omega]
        split
        · exact hprev
        · rfl
      refine ih (updMap fr (sorted.getD k 0)
          (if areTied s (sorted.getD k 0) (sorted.getD (k - 1) 0) then
            fr (sorted.getD (k - 1) 0) else k + 1)) (k + 1) (by omega) (by omega)
        ?_ m hm
      intro m' hm' hml'
      by_cases heq : sorted.getD m' 0 = sorted.getD k 0
      · unfold updMap
        rw [if_pos heq, hv]
        have htied : areTied s (sorted.getD m' 0) (sorted.getD k 0) = true := by
          rw [heq]
          exact areTied_refl s _
        exact (rankVal_congr s sorted hsort (k - m') m' k (by omega) hklt htied).symm
      · unfold updMap
        rw [if_neg heq]
        have hm'k : m' < k := by
          rcases Nat.lt_or_ge m' k with h | h
          · exact h
          · have : m' = k := by omega
            rw [this] at heq
            exact absurd rfl heq
        exact hfr m' hm'k hml'
    · rename_i hklt
      exact hfr m (by omega) hm

/-! ## Concrete states used to witness the theorems -/

/-- A computable stand-in for the cryptographic primitives: signatures carry
the address they recover to. -/
def testEnv : SigEnv where
  keccakPacked := fun _ _ _ _ _ => 0
  toEthSigned := fun h => h
  ecrecover := fun _ sig => sig

def puzzleZero : Puzzle := { puzzleHash := 42, basePoints := 10, active := true }

def defaultStats : PlayerStats :=
  { score := 0, puzzleIndex := 0, claimedNFT := false
    isActivePlayer := false, lastSolveTime := 0 }

/-- A running game with one puzzle set, relay 5 and judge 7. -/
def testActive : ContractState where
  thisAddr := 99
  owner := 1
  avsAddress := 5
  avsSigner := 7
  puzzleCreators := fun _ => false
  gameState := GameState.ACTIVE
  gameStartTimestamp := 0
  gameDuration := 300
  puzzleCount := 1
  puzzles := updMap (fun _ => { puzzleHash := 0, basePoints := 0, active := false }) 0 puzzleZero
  allPlayers := []
  playerStats := fun _ => defaultStats
  tokenIds := 0
  minted := []
  baseTokenURI := "u"
  finalRank := fun _ => 0

def testActiveAfter : ContractState :=
  match submitResult testEnv testActive 5 10 3 0 true 100 7 with
  | .ok st => st
  | .error _ => testActive

def testActiveAfterWrong : ContractState :=
  match submitResult testEnv testActive 5 10 3 0 false 100 7 with
  | .ok st => st
  | .error _ => testActive

/-! ## Claim theorems -/

/-- C1: a successful `submitResult` with `correct = true` increases the
player's score by exactly `basePoints + floor(timeRemaining / 60)`,
increments the player's `puzzleIndex` by exactly 1, and sets the player's
`lastSolveTime` to the call's block timestamp. -/
theorem C1_submit_correct_updates (env : SigEnv) (st st' : ContractState)
    (msgSender blockTimestamp player puzzleId timeRemaining signature : Nat)
    (h : submitResult env st msgSender blockTimestamp player puzzleId true
      timeRemaining signature = .ok st') :
    (st'.playerStats player).score =
      (st.playerStats player).score + (st.puzzles puzzleId).basePoints +
        timeRemaining / 60 ∧
    (st'.playerStats player).puzzleIndex =
      (st.playerStats player).puzzleIndex + 1 ∧
    (st'.playerStats player).lastSolveTime = blockTimestamp := by
  unfold submitResult at h
  by_cases hact : (st.playerStats player).isActivePlayer = true
  all_goals
    simp only [hact, if_true, if_false, eq_self_iff_true, Bool.false_eq_true] at h
  all_goals try (split at h <;> try exact Except.noConfusion h)
  all_goals try (split at h <;> try exact Except.noConfusion h)
  all_goals try (split at h <;> try exact Except.noConfusion h)
  all_goals try (split at h <;> try exact Except.noConfusion h)
  all_goals try (split at h <;> try exact Except.noConfusion h)
  all_goals try (split at h <;> try exact Except.noConfusion h)
  all_goals try (split at h <;> try exact Except.noConfusion h)
  all_goals try (split at h <;> try exact Except.noConfusion h)
  all_goals try (split at h <;> try exact Except.noConfusion h)
  all_goals try (split at h <;> try exact Except.noConfusion h)
  all_goals try (split at h <;> try exact Except.noConfusion h)
  all_goals try (split at h <;> try exact Except.noConfusion h)
  all_goals
    injection h with h2
    subst h2
    simp only [uadd] at *
    split_ifs at * <;> simp_all [updMap] <;> omega

theorem C1_submit_correct_updates_witness :
    (testActiveAfter.playerStats 3).score =
      (testActive.playerStats 3).score + (testActive.puzzles 0).basePoints +
        100 / 60 ∧
    (testActiveAfter.playerStats 3).puzzleIndex =
      (testActive.playerStats 3).puzzleIndex + 1 ∧
    (testActiveAfter.playerStats 3).lastSolveTime = 10 :=
  C1_submit_correct_updates testEnv testActive testActiveAfter 5 10 3 0 100 7 rfl

/-- C2: a successful `submitResult` with `correct = false` applies the fixed
penalty of 2 clamped at zero (the score becomes `score - 2` when
`score ≥ 2`, and `0` otherwise, so it is never negative), and leaves the
player's `puzzleIndex` and `lastSolveTime` unchanged. -/
theorem C2_submit_incorrect_penalty (env : SigEnv) (st st' : ContractState)
    (msgSender blockTimestamp player puzzleId timeRemaining signature : Nat)
    (h : submitResult env st msgSender blockTimestamp player puzzleId false
      timeRemaining signature = .ok st') :
    (2 ≤ (st.playerStats player).score →
      (st'.playerStats player).score = (st.playerStats player).score - 2) ∧
    ((st.playerStats player).score < 2 → (st'.playerStats player).score = 0) ∧
    (st'.playerStats player).puzzleIndex = (st.playerStats player).puzzleIndex ∧
    (st'.playerStats player).lastSolveTime =
      (st.playerStats player).lastSolveTime := by
  unfold submitResult at h
  by_cases hact : (st.playerStats player).isActivePlayer = true
  all_goals
    simp only [hact, if_true, if_false, eq_self_iff_true, Bool.false_eq_true] at h
  all_goals try (split at h <;> try exact Except.noConfusion h)
  all_goals try (split at h <;> try exact Except.noConfusion h)
  all_goals try (split at h <;> try exact Except.noConfusion h)
  all_goals try (split at h <;> try exact Except.noConfusion h)
  all_goals try (split at h <;> try exact Except.noConfusion h)
  all_goals try (split at h <;> try exact Except.noConfusion h)
  all_goals try (split at h <;> try exact Except.noConfusion h)
  all_goals try (split at h <;> try exact Except.noConfusion h)
  all_goals
    injection h with h2
    subst h2
    simp only [uadd] at *
    split_ifs at * <;> simp_all [updMap] <;> omega

theorem C2_submit_incorrect_penalty_witness :
    (2 ≤ (testActive.playerStats 3).score →
      (testActiveAfterWrong.playerStats 3).score =
        (testActive.playerStats 3).score - 2) ∧
    ((testActive.playerStats 3).score < 2 →
      (testActiveAfterWrong.playerStats 3).score = 0) ∧
    (testActiveAfterWrong.playerStats 3).puzzleIndex =
      (testActive.playerStats 3).puzzleIndex ∧
    (testActiveAfterWrong.playerStats 3).lastSolveTime =
      (testActive.playerStats 3).lastSolveTime :=
  C2_submit_incorrect_penalty testEnv testActive testActiveAfterWrong 5 10 3 0 100 7 rfl

/-- C3: a successful `submitResult` requires both that the caller is the
configured relay (`avsAddress`) and that the signature recovers, under the
Ethereum signed-message scheme over
`keccak256(abi.encodePacked(address(this), player, puzzleId, correct,
timeRemaining))`, to the configured judge key (`avsSigner`); when either
condition fails the call reverts (never returns a post-state) and the
transaction leaves the state unchanged. -/
theorem C3_auth_gating (env : SigEnv) (st : ContractState)
    (msgSender blockTimestamp player puzzleId : Nat) (correct : Bool)
    (timeRemaining signature : Nat) :
    (∀ st', submitResult env st msgSender blockTimestamp player puzzleId correct
        timeRemaining signature = .ok st' →
      msgSender = st.avsAddress ∧
      env.ecrecover (env.toEthSigned (env.keccakPacked st.thisAddr player puzzleId
        correct timeRemaining)) signature = st.avsSigner) ∧
    (msgSender ≠ st.avsAddress →
      (∀ st', submitResult env st msgSender blockTimestamp player puzzleId correct
        timeRemaining signature ≠ .ok st') ∧
      applyCall env (Call.submitResult msgSender blockTimestamp player puzzleId
        correct timeRemaining signature) st = st) ∧
    (env.ecrecover (env.toEthSigned (env.keccakPacked st.thisAddr player puzzleId
        correct timeRemaining)) signature ≠ st.avsSigner →
      (∀ st', submitResult env st msgSender blockTimestamp player puzzleId correct
        timeRemaining signature ≠ .ok st') ∧
      applyCall env (Call.submitResult msgSender blockTimestamp player puzzleId
        correct timeRemaining signature) st = st) := by
  have hmain : ∀ st', submitResult env st msgSender blockTimestamp player puzzleId
      correct timeRemaining signature = .ok st' →
      msgSender = st.avsAddress ∧
      env.ecrecover (env.toEthSigned (env.keccakPacked st.thisAddr player puzzleId
        correct timeRemaining)) signature = st.avsSigner := by
    intro st' h
    unfold submitResult at h
    by_cases hact : (st.playerStats player).isActivePlayer = true
    all_goals
      simp only [hact, if_true, if_false, eq_self_iff_true, Bool.false_eq_true] at h
    all_goals try (split at h <;> try exact Except.noConfusion h)
    all_goals try (split at h <;> try exact Except.noConfusion h)
    all_goals try (split at h <;> try exact Except.noConfusion h)
    all_goals try (split at h <;> try exact Except.noConfusion h)
    all_goals try (split at h <;> try exact Except.noConfusion h)
    all_goals try (split at h <;> try exact Except.noConfusion h)
    all_goals try (split at h <;> try exact Except.noConfusion h)
    all_goals try (split at h <;> try exact Except.noConfusion h)
    all_goals try (split at h <;> try exact Except.noConfusion h)
    all_goals try (split at h <;> try exact Except.noConfusion h)
    all_goals try (split at h <;> try exact Except.noConfusion h)
    all_goals try (split at h <;> try exact Except.noConfusion h)
    all_goals clear h
    all_goals exact ⟨by omega, by omega⟩
  refine ⟨hmain, ?_, ?_⟩
  · intro hne
    have hnot : ∀ st', submitResult env st msgSender blockTimestamp player puzzleId
        correct timeRemaining signature ≠ .ok st' :=
      fun st' h => hne (hmain st' h).1
    refine ⟨hnot, ?_⟩
    unfold applyCall applyCallE
    simp only []
    cases hres : submitResult env st msgSender blockTimestamp player puzzleId
        correct timeRemaining signature with
    | ok stx => exact absurd hres (hnot stx)
    | error e => simp [hres]
  · intro hne
    have hnot : ∀ st', submitResult env st msgSender blockTimestamp player puzzleId
        correct timeRemaining signature ≠ .ok st' :=
      fun st' h => hne (hmain st' h).2
    refine ⟨hnot, ?_⟩
    unfold applyCall applyCallE
    simp only []
    cases hres : submitResult env st msgSender blockTimestamp player puzzleId
        correct timeRemaining signature with
    | ok stx => exact absurd hres (hnot stx)
    | error e => simp [hres]

theorem C3_auth_gating_witness :
    (5 : Nat) = testActive.avsAddress ∧
    testEnv.ecrecover (testEnv.toEthSigned (testEnv.keccakPacked testActive.thisAddr
      3 0 true 100)) 7 = testActive.avsSigner :=
  (C3_auth_gating testEnv testActive 5 10 3 0 true 100 7).1 testActiveAfter rfl

/-- A wrong puzzle index or an inactive puzzle makes `submitResult` revert. -/
theorem submitResult_guard_reverts (env : SigEnv) (st : ContractState)
    (msgSender blockTimestamp player puzzleId : Nat) (correct : Bool)
    (timeRemaining signature : Nat)
    (hbad : puzzleId ≠ (st.playerStats player).puzzleIndex ∨
      (st.puzzles puzzleId).active = false) :
    ∀ st', submitResult env st msgSender blockTimestamp player puzzleId
      correct timeRemaining signature ≠ .ok st' := by
    intro st' h
    unfold submitResult at h
    by_cases hact : (st.playerStats player).isActivePlayer = true
    all_goals
      simp only [hact, if_true, if_false, eq_self_iff_true, Bool.false_eq_true] at h
    all_goals try (split at h <;> try exact Except.noConfusion h)
    all_goals try (split at h <;> try exact Except.noConfusion h)
    all_goals try (split at h <;> try exact Except.noConfusion h)
    all_goals try (split at h <;> try exact Except.noConfusion h)
    all_goals try (split at h <;> try exact Except.noConfusion h)
    all_goals try (split at h <;> try exact Except.noConfusion h)
    all_goals try (split at h <;> try exact Except.noConfusion h)
    all_goals try (split at h <;> try exact Except.noConfusion h)
    all_goals try (split at h <;> try exact Except.noConfusion h)
    all_goals try (split at h <;> try exact Except.noConfusion h)
    all_goals try (split at h <;> try exact Except.noConfusion h)
    all_goals try (split at h <;> try exact Except.noConfusion h)
    all_goals rcases hbad with hb | hb <;> simp_all

/-- C4: a `submitResult` call whose `puzzleId` differs from the player's
current `puzzleIndex`, or whose referenced puzzle is not active, reverts:
it never produces a post-state, and the transaction leaves the state
unchanged — in particular a first-time player is not appended to the roster
and is not marked active, even though the roster append is attempted before
these checks. -/
theorem C4_sequencing_guard (env : SigEnv) (st : ContractState)
    (msgSender blockTimestamp player puzzleId : Nat) (correct : Bool)
    (timeRemaining signature : Nat)
    (hbad : puzzleId ≠ (st.playerStats player).puzzleIndex ∨
      (st.puzzles puzzleId).active = false) :
    (∀ st', submitResult env st msgSender blockTimestamp player puzzleId correct
      timeRemaining signature ≠ .ok st') ∧
    applyCall env (Call.submitResult msgSender blockTimestamp player puzzleId
      correct timeRemaining signature) st = st ∧
    (applyCall env (Call.submitResult msgSender blockTimestamp player puzzleId
      correct timeRemaining signature) st).allPlayers = st.allPlayers ∧
    ((applyCall env (Call.submitResult msgSender blockTimestamp player puzzleId
      correct timeRemaining signature) st).playerStats player).isActivePlayer =
      (st.playerStats player).isActivePlayer := by
  have hnot : ∀ st', submitResult env st msgSender blockTimestamp player puzzleId
      correct timeRemaining signature ≠ .ok st' :=
    submitResult_guard_reverts env st msgSender blockTimestamp player puzzleId
      correct timeRemaining signature hbad
  have happ : applyCall env (Call.submitResult msgSender blockTimestamp player
      puzzleId correct timeRemaining signature) st = st := by
    unfold applyCall applyCallE
    simp only []
    cases hres : submitResult env st msgSender blockTimestamp player puzzleId
        correct timeRemaining signature with
    | ok stx => exact absurd hres (hnot stx)
    | error e => simp [hres]
  exact ⟨hnot, happ, by rw [happ], by rw [happ]⟩

theorem C4_sequencing_guard_witness :
    ((1 : Nat) ≠ (testActive.playerStats 3).puzzleIndex ∨
      (testActive.puzzles 1).active = false) ∧
    (∀ st', submitResult testEnv testActive 5 10 3 1 true 100 7 ≠ .ok st') ∧
    applyCall testEnv (Call.submitResult 5 10 3 1 true 100 7) testActive =
      testActive :=
  ⟨Or.inl (by decide),
    (C4_sequencing_guard testEnv testActive 5 10 3 1 true 100 7
      (Or.inl (by decide))).1,
    (C4_sequencing_guard testEnv testActive 5 10 3 1 true 100 7
      (Or.inl (by decide))).2.1⟩

/-- C9: with an empty roster, `finalizeRanks` never succeeds — whatever the
game state and timestamp — because rank assignment unconditionally reads
position 0 of the zero-length sorted roster copy, which panics (reverts). -/
theorem C9_empty_roster_reverts (st : ContractState) (h : st.allPlayers = []) :
    ∀ blockTimestamp st', finalizeRanks st blockTimestamp ≠ .ok st' := by
  intro bt st' hok
  unfold finalizeRanks at hok
  have hempty : outerLoop st.playerStats st.allPlayers 0 = [] := by
    rw [h, outerLoop]
    simp
  simp only [hempty, List.length_nil] at hok
  split at hok <;> simp_all

theorem C9_empty_roster_reverts_witness :
    testActive.allPlayers = [] ∧ finalizeRanks testActive 400 ≠ .ok testActive :=
  ⟨rfl, C9_empty_roster_reverts testActive rfl 400 testActive⟩

/-- A successful submission implies the ACTIVE gate and the deadline gate. -/
theorem submitResult_ok_gate (env : SigEnv) (st : ContractState)
    (msgSender blockTimestamp player puzzleId : Nat) (correct : Bool)
    (timeRemaining signature : Nat) (st1 : ContractState)
    (h : submitResult env st msgSender blockTimestamp player puzzleId correct
      timeRemaining signature = .ok st1) :
    st.gameState = GameState.ACTIVE ∧
    blockTimestamp ≤ st.gameStartTimestamp + st.gameDuration := by
  unfold submitResult at h
  all_goals try (split at h <;> try exact Except.noConfusion h)
  all_goals try (split at h <;> try exact Except.noConfusion h)
  all_goals try (split at h <;> try exact Except.noConfusion h)
  all_goals clear h
  all_goals simp only [uadd] at *
  all_goals split_ifs at * <;> simp_all

/-- A successful `finalizeRanks` implies the game-over gate. -/
theorem finalizeRanks_ok_gate (st : ContractState) (blockTimestamp : Nat)
    (st2 : ContractState) (h : finalizeRanks st blockTimestamp = .ok st2) :
    st.gameState = GameState.ENDED ∨
    blockTimestamp > st.gameStartTimestamp + st.gameDuration := by
  by_cases hend : st.gameState = GameState.ENDED
  · exact Or.inl hend
  · right
    unfold finalizeRanks at h
    simp only [hend, if_false] at h
    all_goals try (split at h <;> try exact Except.noConfusion h)
    all_goals try (split at h <;> try exact Except.noConfusion h)
    all_goals try (split at h <;> try exact Except.noConfusion h)
    all_goals try (split at h <;> try exact Except.noConfusion h)
    all_goals clear h
    all_goals simp only [uadd] at *
    all_goals split_ifs at * <;> simp_all

/-- A successful `claimNFT` implies the game-over gate. -/
theorem claimNFT_ok_gate (st : ContractState) (caller blockTimestamp : Nat)
    (st3 : ContractState) (h : claimNFT st caller blockTimestamp = .ok st3) :
    st.gameState = GameState.ENDED ∨
    blockTimestamp > st.gameStartTimestamp + st.gameDuration := by
  by_cases hend : st.gameState = GameState.ENDED
  · exact Or.inl hend
  · right
    unfold claimNFT at h
    simp only [hend, if_false] at h
    all_goals try (split at h <;> try exact Except.noConfusion h)
    all_goals try (split at h <;> try exact Except.noConfusion h)
    all_goals try (split at h <;> try exact Except.noConfusion h)
    all_goals try (split at h <;> try exact Except.noConfusion h)
    all_goals clear h
    all_goals simp only [uadd] at *
    all_goals split_ifs at * <;> simp_all

/-- C8: the submission window and the finalize/claim window are disjoint:
`submitResult` can succeed only when the game is ACTIVE and the timestamp
is at most `gameStartTimestamp + gameDuration`, while `finalizeRanks` and
`claimNFT` can succeed only when the game is ENDED or the timestamp is past
that deadline; consequently no state and timestamp admits both a successful
submission and a successful finalize or claim. -/
theorem C8_disjoint_windows (env : SigEnv) (st : ContractState)
    (blockTimestamp : Nat) :
    (∀ msgSender player puzzleId correct timeRemaining signature st1,
      submitResult env st msgSender blockTimestamp player puzzleId correct
        timeRemaining signature = .ok st1 →
      st.gameState = GameState.ACTIVE ∧
      blockTimestamp ≤ st.gameStartTimestamp + st.gameDuration) ∧
    (∀ st2, finalizeRanks st blockTimestamp = .ok st2 →
      st.gameState = GameState.ENDED ∨
      blockTimestamp > st.gameStartTimestamp + st.gameDuration) ∧
    (∀ caller st3, claimNFT st caller blockTimestamp = .ok st3 →
      st.gameState = GameState.ENDED ∨
      blockTimestamp > st.gameStartTimestamp + st.gameDuration) ∧
    (∀ msgSender player puzzleId correct timeRemaining signature st1,
      submitResult env st msgSender blockTimestamp player puzzleId correct
        timeRemaining signature = .ok st1 →
      (∀ st2, finalizeRanks st blockTimestamp ≠ .ok st2) ∧
      (∀ caller st3, claimNFT st caller blockTimestamp ≠ .ok st3)) := by
  refine ⟨?_, ?_, ?_, ?_⟩
  · intro ms pl pid c tr sig st1 h
    exact submitResult_ok_gate env st ms blockTimestamp pl pid c tr sig st1 h
  · intro st2 h
    exact finalizeRanks_ok_gate st blockTimestamp st2 h
  · intro caller st3 h
    exact claimNFT_ok_gate st caller blockTimestamp st3 h
  · intro ms pl pid c tr sig st1 h
    have hs := submitResult_ok_gate env st ms blockTimestamp pl pid c tr sig st1 h
    constructor
    · intro st2 h2
      rcases finalizeRanks_ok_gate st blockTimestamp st2 h2 with hg | hg
      · rw [hs.1] at hg
        exact GameState.noConfusion hg
      · omega
    · intro caller st3 h3
      rcases claimNFT_ok_gate st caller blockTimestamp st3 h3 with hg | hg
      · rw [hs.1] at hg
        exact GameState.noConfusion hg
      · omega

theorem C8_disjoint_windows_witness :
    (∀ st2, finalizeRanks testActive 10 ≠ .ok st2) ∧
    (∀ caller st3, claimNFT testActive caller 10 ≠ .ok st3) :=
  (C8_disjoint_windows testEnv testActive 10).2.2.2 5 3 0 true 100 7
    testActiveAfter rfl

/-- Success characterization of `finalizeRanks`: the roster is nonempty and
the post-state is the pre-state with `finalRank` replaced by the result of
the rank-assignment loop over the sorted roster copy. -/
theorem finalizeRanks_ok_elim (st : ContractState) (blockTimestamp : Nat)
    (st' : ContractState) (h : finalizeRanks st blockTimestamp = .ok st') :
    0 < (outerLoop st.playerStats st.allPlayers 0).length ∧
    st'.finalRank = rankLoop st.playerStats (outerLoop st.playerStats st.allPlayers 0)
      (updMap st.finalRank ((outerLoop st.playerStats st.allPlayers 0).getD 0 0) 1) 1 ∧
    st'.allPlayers = st.allPlayers ∧ st'.playerStats = st.playerStats ∧
    st'.gameState = st.gameState ∧ st'.gameStartTimestamp = st.gameStartTimestamp ∧
    st'.gameDuration = st.gameDuration ∧ st'.puzzles = st.puzzles ∧
    st'.tokenIds = st.tokenIds ∧ st'.minted = st.minted := by
  unfold finalizeRanks at h
  all_goals try (split at h <;> try exact Except.noConfusion h)
  all_goals try (simp only [] at h)
  all_goals try (split at h <;> try exact Except.noConfusion h)
  all_goals try (simp only [] at h)
  all_goals try (split at h <;> try exact Except.noConfusion h)
  all_goals try (simp only [] at h)
  all_goals try (split at h <;> try exact Except.noConfusion h)
  all_goals try (simp only [] at h)
  all_goals try (split at h <;> try exact Except.noConfusion h)
  all_goals
    injection h with h2
    subst h2
    refine ⟨by assumption, rfl, rfl, rfl, rfl, rfl, rfl, rfl, rfl, rfl⟩

/-- The game-over gate of `finalizeRanks`, including the overflow bound of
the checked deadline addition. -/
theorem finalizeRanks_ok_gate2 (st : ContractState) (blockTimestamp : Nat)
    (st2 : ContractState) (h : finalizeRanks st blockTimestamp = .ok st2) :
    st.gameState = GameState.ENDED ∨
    (st.gameStartTimestamp + st.gameDuration ≤ MAXU ∧
      blockTimestamp > st.gameStartTimestamp + st.gameDuration) := by
  by_cases hend : st.gameState = GameState.ENDED
  · exact Or.inl hend
  · right
    unfold finalizeRanks at h
    simp only [hend, if_false] at h
    all_goals try (split at h <;> try exact Except.noConfusion h)
    all_goals try (split at h <;> try exact Except.noConfusion h)
    all_goals try (split at h <;> try exact Except.noConfusion h)
    all_goals try (split at h <;> try exact Except.noConfusion h)
    all_goals clear h
    all_goals simp only [uadd] at *
    all_goals split_ifs at * <;> simp_all

/-- Constructor form of a successful `finalizeRanks`. -/
theorem finalizeRanks_eq_ok (st : ContractState) (blockTimestamp : Nat)
    (hgate : st.gameState = GameState.ENDED ∨
      (st.gameStartTimestamp + st.gameDuration ≤ MAXU ∧
        blockTimestamp > st.gameStartTimestamp + st.gameDuration))
    (hlen : 0 < (outerLoop st.playerStats st.allPlayers 0).length) :
    finalizeRanks st blockTimestamp =
      .ok { st with
            finalRank :=
              rankLoop st.playerStats (outerLoop st.playerStats st.allPlayers 0)
                (updMap st.finalRank
                  ((outerLoop st.playerStats st.allPlayers 0).getD 0 0) 1) 1 } := by
  unfold finalizeRanks
  by_cases hend : st.gameState = GameState.ENDED
  · simp only [hend, if_true, hlen, if_pos]
  · rcases hgate with hg | hg
    · exact absurd hg hend
    · simp only [hend, if_false, uadd, hg.1, if_pos, gt_iff_lt]
      have hbt : st.gameStartTimestamp + st.gameDuration < blockTimestamp := hg.2
      simp only [hbt, if_pos, hlen]

/-- Membership in a list, phrased through `getD` positions. -/
theorem mem_iff_getD (l : List Nat) (a : Nat) :
    a ∈ l ↔ ∃ k, k < l.length ∧ l.getD k 0 = a := by
  rw [List.mem_iff_getElem]
  constructor
  · rintro ⟨n, hn, he⟩
    exact ⟨n, hn, by rw [getD_eq_getElem_nat _ _ hn]; exact he⟩
  · rintro ⟨k, hk, he⟩
    exact ⟨k, hk, by rw [← getD_eq_getElem_nat _ _ hk]; exact he⟩

/-- C5: after a successful `finalizeRanks`, there is a sorted permutation of
the roster (no later entry beats an earlier one under the three-key
comparator) such that final ranks are competition-style over it: position 0
gets rank 1, every position `k ≥ 1` gets its predecessor's rank value when
tied with it and its 1-based position `k + 1` otherwise (so rank numbers can
have gaps), ranks of addresses outside the roster are untouched, and any two
roster players with identical (score, puzzleIndex, lastSolveTime) receive
identical final rank. -/
theorem C5_competition_ranking (st : ContractState) (blockTimestamp : Nat)
    (st' : ContractState) (h : finalizeRanks st blockTimestamp = .ok st') :
    ∃ sorted : List Nat,
      sorted.Perm st.allPlayers ∧
      SortedRoster st.playerStats sorted ∧
      0 < sorted.length ∧
      st'.finalRank (sorted.getD 0 0) = 1 ∧
      (∀ k, k < sorted.length →
        st'.finalRank (sorted.getD k 0) = rankVal st.playerStats sorted k) ∧
      (∀ k, 0 < k → k < sorted.length →
        rankVal st.playerStats sorted k =
          if areTied st.playerStats (sorted.getD k 0) (sorted.getD (k - 1) 0) then
            rankVal st.playerStats sorted (k - 1)
          else k + 1) ∧
      (∀ a, ¬ a ∈ sorted → st'.finalRank a = st.finalRank a) ∧
      (∀ p q, p ∈ st.allPlayers → q ∈ st.allPlayers →
        areTied st.playerStats p q = true →
        st'.finalRank p = st'.finalRank q) := by
  obtain ⟨hlen, hfr, -, -, -, -, -, -, -, -⟩ :=
    finalizeRanks_ok_elim st blockTimestamp st' h
  have hperm := outerLoop_perm st.playerStats st.allPlayers 0
  have hsorted := outerLoop_sorted st.playerStats st.allPlayers
  have hvalk : ∀ k, k < (outerLoop st.playerStats st.allPlayers 0).length →
      st'.finalRank ((outerLoop st.playerStats st.allPlayers 0).getD k 0) =
        rankVal st.playerStats (outerLoop st.playerStats st.allPlayers 0) k := by
    intro k hk
    rw [hfr]
    refine rankLoop_mem st.playerStats _ hsorted _ 1 (le_refl 1) ?_ k hk
    intro m hm _hml
    have hm0 : m = 0 := by omega
    subst hm0
    unfold updMap
    rw [if_pos rfl]
    rfl
  refine ⟨outerLoop st.playerStats st.allPlayers 0, hperm, hsorted, hlen,
    by simpa using hvalk 0 hlen, hvalk, ?_, ?_, ?_⟩
  · intro k hk0 hkl
    have hk1 : k - 1 + 1 = k := by omega
    have hrv : rankVal st.playerStats (outerLoop st.playerStats st.allPlayers 0)
        (k - 1 + 1) =
        if areTied st.playerStats
            ((outerLoop st.playerStats st.allPlayers 0).getD (k - 1 + 1) 0)
            ((outerLoop st.playerStats st.allPlayers 0).getD (k - 1) 0) then
          rankVal st.playerStats (outerLoop st.playerStats st.allPlayers 0) (k - 1)
        else (k - 1) + 2 := rfl
    rw [hk1] at hrv
    rw [hrv, show k - 1 + 2 = k + 1 from by omega]
  · intro a ha
    rw [hfr]
    rw [rankLoop_off st.playerStats _ _ 1 a ?_]
    · unfold updMap
      rw [if_neg ?_]
      intro heq
      exact ha ((mem_iff_getD _ a).mpr ⟨0, hlen, by rw [heq]⟩)
    · intro m hm heq
      exact ha ((mem_iff_getD _ a).mpr ⟨m, hm, heq⟩)
  · intro p q hp hq htied
    have hp2 : p ∈ outerLoop st.playerStats st.allPlayers 0 := hperm.mem_iff.mpr hp
    have hq2 : q ∈ outerLoop st.playerStats st.allPlayers 0 := hperm.mem_iff.mpr hq
    obtain ⟨kp, hkp, hgp⟩ := (mem_iff_getD _ p).mp hp2
    obtain ⟨kq, hkq, hgq⟩ := (mem_iff_getD _ q).mp hq2
    rw [← hgp, ← hgq, hvalk kp hkp, hvalk kq hkq]
    rcases Nat.le_total kp kq with hle | hle
    · exact rankVal_congr st.playerStats _ hsorted (kq - kp) kp kq (by omega) hkq
        (by rw [hgp, hgq]; exact htied)
    · exact (rankVal_congr st.playerStats _ hsorted (kp - kq) kq kp (by omega) hkp
        (by rw [hgp, hgq]; exact areTied_symm st.playerStats htied)).symm

/-- Four players with a tie between players 4 and 5, game ended. -/
def testEnded : ContractState :=
  { testActive with
    gameState := GameState.ENDED
    allPlayers := [3, 4, 5, 6]
    playerStats := fun a =>
      if a = 3 then
        { score := 5, puzzleIndex := 1, claimedNFT := false
          isActivePlayer := true, lastSolveTime := 50 }
      else if a = 4 then
        { score := 11, puzzleIndex := 1, claimedNFT := false
          isActivePlayer := true, lastSolveTime := 20 }
      else if a = 5 then
        { score := 11, puzzleIndex := 1, claimedNFT := false
          isActivePlayer := true, lastSolveTime := 20 }
      else if a = 6 then
        { score := 11, puzzleIndex := 2, claimedNFT := false
          isActivePlayer := true, lastSolveTime := 60 }
      else defaultStats }

def testRanked : ContractState :=
  { testEnded with
    finalRank :=
      rankLoop testEnded.playerStats
        (outerLoop testEnded.playerStats testEnded.allPlayers 0)
        (updMap testEnded.finalRank
          ((outerLoop testEnded.playerStats testEnded.allPlayers 0).getD 0 0) 1) 1 }

theorem testRanked_ok : finalizeRanks testEnded 1000 = .ok testRanked :=
  finalizeRanks_eq_ok testEnded 1000 (Or.inl rfl)
    (by rw [length_outerLoop]; decide)

theorem C5_competition_ranking_witness :
    ∃ sorted : List Nat,
      sorted.Perm testEnded.allPlayers ∧
      SortedRoster testEnded.playerStats sorted ∧
      0 < sorted.length ∧
      testRanked.finalRank (sorted.getD 0 0) = 1 ∧
      (∀ k, k < sorted.length →
        testRanked.finalRank (sorted.getD k 0) =
          rankVal testEnded.playerStats sorted k) ∧
      (∀ k, 0 < k → k < sorted.length →
        rankVal testEnded.playerStats sorted k =
          if areTied testEnded.playerStats (sorted.getD k 0)
              (sorted.getD (k - 1) 0) then
            rankVal testEnded.playerStats sorted (k - 1)
          else k + 1) ∧
      (∀ a, ¬ a ∈ sorted → testRanked.finalRank a = testEnded.finalRank a) ∧
      (∀ p q, p ∈ testEnded.allPlayers → q ∈ testEnded.allPlayers →
        areTied testEnded.playerStats p q = true →
        testRanked.finalRank p = testRanked.finalRank q) :=
  C5_competition_ranking testEnded 1000 testRanked testRanked_ok

/-- C6: `finalizeRanks` has no already-finalized guard: after a successful
run, running it again from the resulting state (with no intervening calls)
succeeds and produces the identical `finalRank` mapping. -/
theorem C6_finalize_idempotent (st : ContractState) (blockTimestamp : Nat)
    (st1 : ContractState) (h : finalizeRanks st blockTimestamp = .ok st1) :
    ∃ st2, finalizeRanks st1 blockTimestamp = .ok st2 ∧
      st2.finalRank = st1.finalRank := by
  obtain ⟨hlen, hfr, hap, hps, hgs, hgt, hgd, _hpz, _htk, _hmt⟩ :=
    finalizeRanks_ok_elim st blockTimestamp st1 h
  have hgate := finalizeRanks_ok_gate2 st blockTimestamp st1 h
  have hgate1 : st1.gameState = GameState.ENDED ∨
      (st1.gameStartTimestamp + st1.gameDuration ≤ MAXU ∧
        blockTimestamp > st1.gameStartTimestamp + st1.gameDuration) := by
    rw [hgs, hgt, hgd]
    exact hgate
  have hlen1 : 0 < (outerLoop st1.playerStats st1.allPlayers 0).length := by
    rw [hps, hap]
    exact hlen
  refine ⟨_, finalizeRanks_eq_ok st1 blockTimestamp hgate1 hlen1, ?_⟩
  show rankLoop st1.playerStats (outerLoop st1.playerStats st1.allPlayers 0)
      (updMap st1.finalRank
        ((outerLoop st1.playerStats st1.allPlayers 0).getD 0 0) 1) 1 =
    st1.finalRank
  rw [hps, hap]
  have hsorted := outerLoop_sorted st.playerStats st.allPlayers
  have hbase1 : ∀ m, m < 1 → m < (outerLoop st.playerStats st.allPlayers 0).length →
      (updMap st1.finalRank ((outerLoop st.playerStats st.allPlayers 0).getD 0 0) 1)
        ((outerLoop st.playerStats st.allPlayers 0).getD m 0) =
      rankVal st.playerStats (outerLoop st.playerStats st.allPlayers 0) m := by
    intro m hm _hml
    have hm0 : m = 0 := by omega
    subst hm0
    unfold updMap
    rw [if_pos rfl]
    rfl
  have hbase0 : ∀ m, m < 1 → m < (outerLoop st.playerStats st.allPlayers 0).length →
      (updMap st.finalRank ((outerLoop st.playerStats st.allPlayers 0).getD 0 0) 1)
        ((outerLoop st.playerStats st.allPlayers 0).getD m 0) =
      rankVal st.playerStats (outerLoop st.playerStats st.allPlayers 0) m := by
    intro m hm _hml
    have hm0 : m = 0 := by omega
    subst hm0
    unfold updMap
    rw [if_pos rfl]
    rfl
  funext a
  by_cases hmem : a ∈ outerLoop st.playerStats st.allPlayers 0
  · obtain ⟨k, hk, hgk⟩ := (mem_iff_getD _ a).mp hmem
    rw [← hgk]
    rw [rankLoop_mem st.playerStats _ hsorted _ 1 (le_refl 1) hbase1 k hk]
    rw [hfr]
    rw [rankLoop_mem st.playerStats _ hsorted _ 1 (le_refl 1) hbase0 k hk]
  · have hno : ∀ m, m < (outerLoop st.playerStats st.allPlayers 0).length →
        (outerLoop st.playerStats st.allPlayers 0).getD m 0 ≠ a := by
      intro m hm heq
      exact hmem ((mem_iff_getD _ a).mpr ⟨m, hm, heq⟩)
    rw [rankLoop_off st.playerStats _ _ 1 a hno]
    unfold updMap
    rw [if_neg ?_]
    intro heq
    exact hmem ((mem_iff_getD _ a).mpr ⟨0, hlen, heq.symm⟩)

theorem C6_finalize_idempotent_witness :
    ∃ st2, finalizeRanks testRanked 1000 = .ok st2 ∧
      st2.finalRank = testRanked.finalRank :=
  C6_finalize_idempotent testEnded 1000 testRanked testRanked_ok

/-! ## Per-operation field preservation -/

theorem setPuzzleCreator_ok_fields (st : ContractState) (ms cr : Nat) (b : Bool)
    (st' : ContractState) (h : setPuzzleCreator st ms cr b = .ok st') :
    st'.puzzles = st.puzzles ∧ st'.playerStats = st.playerStats ∧
    st'.minted = st.minted ∧ st'.tokenIds = st.tokenIds := by
  unfold setPuzzleCreator at h
  split at h
  · exact Except.noConfusion h
  · injection h with h2
    subst h2
    exact ⟨rfl, rfl, rfl, rfl⟩

theorem setAvsAddress_ok_fields (st : ContractState) (ms a : Nat)
    (st' : ContractState) (h : setAvsAddress st ms a = .ok st') :
    st'.puzzles = st.puzzles ∧ st'.playerStats = st.playerStats ∧
    st'.minted = st.minted ∧ st'.tokenIds = st.tokenIds := by
  unfold setAvsAddress at h
  split at h
  · exact Except.noConfusion h
  · injection h with h2
    subst h2
    exact ⟨rfl, rfl, rfl, rfl⟩

theorem setAvsSigner_ok_fields (st : ContractState) (ms a : Nat)
    (st' : ContractState) (h : setAvsSigner st ms a = .ok st') :
    st'.puzzles = st.puzzles ∧ st'.playerStats = st.playerStats ∧
    st'.minted = st.minted ∧ st'.tokenIds = st.tokenIds := by
  unfold setAvsSigner at h
  split at h
  · exact Except.noConfusion h
  · injection h with h2
    subst h2
    exact ⟨rfl, rfl, rfl, rfl⟩

theorem startGame_ok_fields (st : ContractState) (ms bt d : Nat)
    (st' : ContractState) (h : startGame st ms bt d = .ok st') :
    st'.puzzles = st.puzzles ∧ st'.playerStats = st.playerStats ∧
    st'.minted = st.minted ∧ st'.tokenIds = st.tokenIds := by
  unfold startGame at h
  split at h
  · exact Except.noConfusion h
  · split at h
    · exact Except.noConfusion h
    · split at h
      · exact Except.noConfusion h
      · injection h with h2
        subst h2
        exact ⟨rfl, rfl, rfl, rfl⟩

theorem endGame_ok_fields (st : ContractState) (ms : Nat)
    (st' : ContractState) (h : endGame st ms = .ok st') :
    st'.puzzles = st.puzzles ∧ st'.playerStats = st.playerStats ∧
    st'.minted = st.minted ∧ st'.tokenIds = st.tokenIds := by
  unfold endGame at h
  split at h
  · exact Except.noConfusion h
  · split at h
    · exact Except.noConfusion h
    · injection h with h2
      subst h2
      exact ⟨rfl, rfl, rfl, rfl⟩

theorem setPuzzleHash_ok_fields (st : ContractState) (ms pid hs bp : Nat)
    (st' : ContractState) (h : setPuzzleHash st ms pid hs bp = .ok st') :
    st'.playerStats = st.playerStats ∧ st'.minted = st.minted ∧
    st'.tokenIds = st.tokenIds ∧
    st'.puzzles = updMap st.puzzles pid
      { puzzleHash := hs, basePoints := bp, active := true } := by
  unfold setPuzzleHash at h
  split at h
  · exact Except.noConfusion h
  · split at h
    · split at h
      · exact Except.noConfusion h
      · injection h with h2
        subst h2
        exact ⟨rfl, rfl, rfl, rfl⟩
    · injection h with h2
      subst h2
      exact ⟨rfl, rfl, rfl, rfl⟩

theorem submitResult_ok_fields (env : SigEnv) (st : ContractState)
    (msgSender blockTimestamp player puzzleId : Nat) (correct : Bool)
    (timeRemaining signature : Nat) (st' : ContractState)
    (h : submitResult env st msgSender blockTimestamp player puzzleId correct
      timeRemaining signature = .ok st') :
    st'.puzzles = st.puzzles ∧ st'.minted = st.minted ∧
    st'.tokenIds = st.tokenIds ∧
    (∀ q, (st'.playerStats q).claimedNFT = (st.playerStats q).claimedNFT) := by
  unfold submitResult at h
  by_cases hact : (st.playerStats player).isActivePlayer = true
  all_goals
    simp only [hact, if_true, if_false, eq_self_iff_true, Bool.false_eq_true] at h
  all_goals try (split at h <;> try exact Except.noConfusion h)
  all_goals try (split at h <;> try exact Except.noConfusion h)
  all_goals try (split at h <;> try exact Except.noConfusion h)
  all_goals try (split at h <;> try exact Except.noConfusion h)
  all_goals try (split at h <;> try exact Except.noConfusion h)
  all_goals try (split at h <;> try exact Except.noConfusion h)
  all_goals try (split at h <;> try exact Except.noConfusion h)
  all_goals try (split at h <;> try exact Except.noConfusion h)
  all_goals try (split at h <;> try exact Except.noConfusion h)
  all_goals try (split at h <;> try exact Except.noConfusion h)
  all_goals try (split at h <;> try exact Except.noConfusion h)
  all_goals try (split at h <;> try exact Except.noConfusion h)
  all_goals
    injection h with h2
    subst h2
    refine ⟨rfl, rfl, rfl, ?_⟩
    intro q
    simp only [updMap]
    split_ifs with hq
    · subst hq
      rfl
    · rfl

/-- Success characterization of `claimNFT`. -/
theorem claimNFT_ok_elim (st : ContractState) (caller blockTimestamp : Nat)
    (st' : ContractState) (h : claimNFT st caller blockTimestamp = .ok st') :
    (st.gameState = GameState.ENDED ∨
      (st.gameStartTimestamp + st.gameDuration ≤ MAXU ∧
        blockTimestamp > st.gameStartTimestamp + st.gameDuration)) ∧
    st.finalRank caller > 0 ∧
    (st.playerStats caller).claimedNFT = false ∧
    st'.tokenIds = st.tokenIds + 1 ∧
    st'.minted = (st.tokenIds + 1, caller) :: st.minted ∧
    (st'.playerStats caller).claimedNFT = true ∧
    (∀ q, q ≠ caller → st'.playerStats q = st.playerStats q) ∧
    st'.finalRank = st.finalRank ∧ st'.gameState = st.gameState ∧
    st'.gameStartTimestamp = st.gameStartTimestamp ∧
    st'.gameDuration = st.gameDuration ∧ st'.puzzles = st.puzzles := by
  have hgate : st.gameState = GameState.ENDED ∨
      (st.gameStartTimestamp + st.gameDuration ≤ MAXU ∧
        blockTimestamp > st.gameStartTimestamp + st.gameDuration) := by
    by_cases hend : st.gameState = GameState.ENDED
    · exact Or.inl hend
    · right
      unfold claimNFT at h
      simp only [hend, if_false] at h
      all_goals try (split at h <;> try exact Except.noConfusion h)
      all_goals try (split at h <;> try exact Except.noConfusion h)
      all_goals try (split at h <;> try exact Except.noConfusion h)
      all_goals try (split at h <;> try exact Except.noConfusion h)
      all_goals try (split at h <;> try exact Except.noConfusion h)
      all_goals try (split at h <;> try exact Except.noConfusion h)
      all_goals clear h
      all_goals simp only [uadd] at *
      all_goals split_ifs at * <;> simp_all
  refine ⟨hgate, ?_⟩
  unfold claimNFT at h
  all_goals try (split at h <;> try exact Except.noConfusion h)
  all_goals try (simp only [] at h)
  all_goals try (split at h <;> try exact Except.noConfusion h)
  all_goals try (simp only [] at h)
  all_goals try (split at h <;> try exact Except.noConfusion h)
  all_goals try (simp only [] at h)
  all_goals try (split at h <;> try exact Except.noConfusion h)
  all_goals try (simp only [] at h)
  all_goals try (split at h <;> try exact Except.noConfusion h)
  all_goals try (simp only [] at h)
  all_goals try (split at h <;> try exact Except.noConfusion h)
  all_goals try (simp only [] at h)
  all_goals try (split at h <;> try exact Except.noConfusion h)
  all_goals
    simp only [uadd] at *
    split_ifs at * <;> try exact Except.noConfusion h
  all_goals
    injection h with h2
    subst h2
    refine ⟨by omega, by simp_all, by simp_all, by simp_all, by simp [updMap],
      ?_, rfl, rfl, rfl, rfl, rfl⟩
    intro q hq
    simp only [updMap]
    rw [if_neg hq]

/-- `claimedNFT`, once set, survives every call (reverts included). -/
theorem applyCall_claimed_mono (env : SigEnv) (c : Call) (st : ContractState)
    (p : Nat) (h : (st.playerStats p).claimedNFT = true) :
    ((applyCall env c st).playerStats p).claimedNFT = true := by
  cases c with
  | setPuzzleCreator ms cr b =>
    unfold applyCall applyCallE
    simp only []
    cases hres : setPuzzleCreator st ms cr b with
    | error e => exact h
    | ok st' =>
      obtain ⟨-, hps, -, -⟩ := setPuzzleCreator_ok_fields st ms cr b st' hres
      simp only [hps]
      exact h
  | setAvsAddress ms a =>
    unfold applyCall applyCallE
    simp only []
    cases hres : setAvsAddress st ms a with
    | error e => exact h
    | ok st' =>
      obtain ⟨-, hps, -, -⟩ := setAvsAddress_ok_fields st ms a st' hres
      simp only [hps]
      exact h
  | setAvsSigner ms a =>
    unfold applyCall applyCallE
    simp only []
    cases hres : setAvsSigner st ms a with
    | error e => exact h
    | ok st' =>
      obtain ⟨-, hps, -, -⟩ := setAvsSigner_ok_fields st ms a st' hres
      simp only [hps]
      exact h
  | startGame ms bt d =>
    unfold applyCall applyCallE
    simp only []
    cases hres : startGame st ms bt d with
    | error e => exact h
    | ok st' =>
      obtain ⟨-, hps, -, -⟩ := startGame_ok_fields st ms bt d st' hres
      simp only [hps]
      exact h
  | endGame ms =>
    unfold applyCall applyCallE
    simp only []
    cases hres : endGame st ms with
    | error e => exact h
    | ok st' =>
      obtain ⟨-, hps, -, -⟩ := endGame_ok_fields st ms st' hres
      simp only [hps]
      exact h
  | setPuzzleHash ms pid hs bp =>
    unfold applyCall applyCallE
    simp only []
    cases hres : setPuzzleHash st ms pid hs bp with
    | error e => exact h
    | ok st' =>
      obtain ⟨hps, -, -, -⟩ := setPuzzleHash_ok_fields st ms pid hs bp st' hres
      simp only [hps]
      exact h
  | submitResult ms bt pl pid c tr sig =>
    unfold applyCall applyCallE
    simp only []
    cases hres : submitResult env st ms bt pl pid c tr sig with
    | error e => exact h
    | ok st' =>
      obtain ⟨-, -, -, hcl⟩ :=
        submitResult_ok_fields env st ms bt pl pid c tr sig st' hres
      simp only [hcl]
      exact h
  | finalizeRanks bt =>
    unfold applyCall applyCallE
    simp only []
    cases hres : finalizeRanks st bt with
    | error e => exact h
    | ok st' =>
      obtain ⟨-, -, -, hps, -, -, -, -, -, -⟩ := finalizeRanks_ok_elim st bt st' hres
      simp only [hps]
      exact h
  | claimNFT ms bt =>
    unfold applyCall applyCallE
    simp only []
    cases hres : claimNFT st ms bt with
    | error e => exact h
    | ok st' =>
      obtain ⟨-, -, -, -, -, hcl, hothers, -, -, -, -, -⟩ :=
        claimNFT_ok_elim st ms bt st' hres
      by_cases hp : p = ms
      · subst hp
        exact hcl
      · rw [hothers p hp]
        exact h

/-- `claimedNFT` is monotone along whole transaction traces. -/
theorem applyTrace_claimed_mono (env : SigEnv) (cs : List Call) :
    ∀ (st : ContractState) (p : Nat), (st.playerStats p).claimedNFT = true →
    ((applyTrace env cs st).playerStats p).claimedNFT = true := by
  induction cs with
  | nil => intro st p h; exact h
  | cons c rest ih =>
    intro st p h
    exact ih _ p (applyCall_claimed_mono env c st p h)

/-- C7: `claimNFT` succeeds at most once per player, ever: success requires
the game over (ENDED or past deadline), a positive final rank, and not
having claimed yet; on success it flips `claimedNFT` to true and mints
token id `_tokenIds + 1`, strictly greater than every previously minted
identifier (assuming the mint-counter invariant); an immediate second call
by the same player reverts with the already-claimed error, and no later
call sequence ever lets that player claim again. -/
theorem C7_claim_once (env : SigEnv) (st : ContractState)
    (caller blockTimestamp : Nat) (st' : ContractState)
    (hmint : ∀ t ∈ st.minted, t.1 ≤ st.tokenIds)
    (h : claimNFT st caller blockTimestamp = .ok st') :
    (st.gameState = GameState.ENDED ∨
      blockTimestamp > st.gameStartTimestamp + st.gameDuration) ∧
    st.finalRank caller > 0 ∧
    (st.playerStats caller).claimedNFT = false ∧
    (st'.playerStats caller).claimedNFT = true ∧
    st'.tokenIds = st.tokenIds + 1 ∧
    st'.minted = (st.tokenIds + 1, caller) :: st.minted ∧
    (∀ t ∈ st.minted, t.1 < st.tokenIds + 1) ∧
    (∀ t ∈ st'.minted, t.1 ≤ st'.tokenIds) ∧
    claimNFT st' caller blockTimestamp = .error "Already claimed NFT" ∧
    (∀ cs : List Call, ∀ blockTimestamp2 st3,
      claimNFT (applyTrace env cs st') caller blockTimestamp2 ≠ .ok st3) := by
  obtain ⟨hgate, hrank, hclaimed, htok, hmintd, hclaimed2, _hothers, hfr, hgs,
      hgst, hgd, _hpz⟩ := claimNFT_ok_elim st caller blockTimestamp st' h
  refine ⟨?_, hrank, hclaimed, hclaimed2, htok, hmintd, ?_, ?_, ?_, ?_⟩
  · rcases hgate with hg | hg
    · exact Or.inl hg
    · exact Or.inr hg.2
  · intro t ht
    have := hmint t ht
    omega
  · rw [hmintd, htok]
    intro t ht
    rcases List.mem_cons.mp ht with heq | hmem
    · rw [heq]
    · have := hmint t hmem
      omega
  · have hgo : (if st'.gameState = GameState.ENDED then (Except.ok () : Except String Unit)
        else match uadd st'.gameStartTimestamp st'.gameDuration with
          | .error e => .error e
          | .ok deadline =>
            if blockTimestamp > deadline then .ok ()
            else .error "Game not ended yet") = .ok () := by
      by_cases hend2 : st'.gameState = GameState.ENDED
      · rw [if_pos hend2]
      · rw [if_neg hend2]
        rcases hgate with hg | hg
        · exact absurd (by rw [hgs]; exact hg) hend2
        · rw [hgst, hgd]
          simp only [uadd, hg.1, if_pos]
          rw [if_pos hg.2]
    unfold claimNFT
    rw [hgo]
    simp only []
    rw [if_neg (fun hn => hn (by rw [hfr]; exact hrank))]
    rw [if_pos hclaimed2]
  · intro cs blockTimestamp2 st3 hok
    have hclaimedT : ((applyTrace env cs st').playerStats caller).claimedNFT = true :=
      applyTrace_claimed_mono env cs st' caller hclaimed2
    obtain ⟨-, -, hfalse, -⟩ :=
      claimNFT_ok_elim (applyTrace env cs st') caller blockTimestamp2 st3 hok
    rw [hclaimedT] at hfalse
    exact Bool.noConfusion hfalse

/-- Ended game with an assigned rank for player 4, ready to claim. -/
def testForClaim : ContractState :=
  { testEnded with finalRank := fun a => if a = 4 then 2 else 0 }

def testClaimed : ContractState :=
  match claimNFT testForClaim 4 1000 with
  | .ok st => st
  | .error _ => testForClaim

theorem C7_claim_once_witness :
    (testForClaim.gameState = GameState.ENDED ∨
      1000 > testForClaim.gameStartTimestamp + testForClaim.gameDuration) ∧
    testForClaim.finalRank 4 > 0 ∧
    (testForClaim.playerStats 4).claimedNFT = false ∧
    (testClaimed.playerStats 4).claimedNFT = true ∧
    testClaimed.tokenIds = testForClaim.tokenIds + 1 ∧
    testClaimed.minted = (testForClaim.tokenIds + 1, 4) :: testForClaim.minted ∧
    (∀ t ∈ testForClaim.minted, t.1 < testForClaim.tokenIds + 1) ∧
    (∀ t ∈ testClaimed.minted, t.1 ≤ testClaimed.tokenIds) ∧
    claimNFT testClaimed 4 1000 = .error "Already claimed NFT" ∧
    (∀ cs : List Call, ∀ blockTimestamp2 st3,
      claimNFT (applyTrace testEnv cs testClaimed) 4 blockTimestamp2 ≠ .ok st3) :=
  C7_claim_once testEnv testForClaim 4 1000 testClaimed (by simp [testForClaim, testEnded, testActive]) rfl

/-- Does this call write the puzzle entry `id` (i.e. is it `setPuzzleHash`
for that id)? -/
def isSetPuzzleHashAt (c : Call) (id : Nat) : Prop :=
  match c with
  | .setPuzzleHash _ pid _ _ => pid = id
  | _ => False

/-- Only `setPuzzleHash` for `id` can change the puzzle entry `id`. -/
theorem applyCall_puzzles_preserved (env : SigEnv) (c : Call) (st : ContractState)
    (id : Nat) (hnw : ¬ isSetPuzzleHashAt c id) :
    (applyCall env c st).puzzles id = st.puzzles id := by
  cases c with
  | setPuzzleCreator ms cr b =>
    unfold applyCall applyCallE
    simp only []
    cases hres : setPuzzleCreator st ms cr b with
    | error e => rfl
    | ok st' =>
      obtain ⟨hpz, -, -, -⟩ := setPuzzleCreator_ok_fields st ms cr b st' hres
      rw [hpz]
  | setAvsAddress ms a =>
    unfold applyCall applyCallE
    simp only []
    cases hres : setAvsAddress st ms a with
    | error e => rfl
    | ok st' =>
      obtain ⟨hpz, -, -, -⟩ := setAvsAddress_ok_fields st ms a st' hres
      rw [hpz]
  | setAvsSigner ms a =>
    unfold applyCall applyCallE
    simp only []
    cases hres : setAvsSigner st ms a with
    | error e => rfl
    | ok st' =>
      obtain ⟨hpz, -, -, -⟩ := setAvsSigner_ok_fields st ms a st' hres
      rw [hpz]
  | startGame ms bt d =>
    unfold applyCall applyCallE
    simp only []
    cases hres : startGame st ms bt d with
    | error e => rfl
    | ok st' =>
      obtain ⟨hpz, -, -, -⟩ := startGame_ok_fields st ms bt d st' hres
      rw [hpz]
  | endGame ms =>
    unfold applyCall applyCallE
    simp only []
    cases hres : endGame st ms with
    | error e => rfl
    | ok st' =>
      obtain ⟨hpz, -, -, -⟩ := endGame_ok_fields st ms st' hres
      rw [hpz]
  | setPuzzleHash ms pid hs bp =>
    unfold applyCall applyCallE
    simp only []
    cases hres : setPuzzleHash st ms pid hs bp with
    | error e => rfl
    | ok st' =>
      obtain ⟨-, -, -, hpz⟩ := setPuzzleHash_ok_fields st ms pid hs bp st' hres
      rw [hpz]
      unfold updMap
      rw [if_neg ?_]
      intro heq
      exact hnw (by simpa [isSetPuzzleHashAt] using heq.symm)
  | submitResult ms bt pl pid c tr sig =>
    unfold applyCall applyCallE
    simp only []
    cases hres : submitResult env st ms bt pl pid c tr sig with
    | error e => rfl
    | ok st' =>
      obtain ⟨hpz, -, -, -⟩ :=
        submitResult_ok_fields env st ms bt pl pid c tr sig st' hres
      rw [hpz]
  | finalizeRanks bt =>
    unfold applyCall applyCallE
    simp only []
    cases hres : finalizeRanks st bt with
    | error e => rfl
    | ok st' =>
      obtain ⟨-, -, -, -, -, -, -, hpz, -, -⟩ := finalizeRanks_ok_elim st bt st' hres
      rw [hpz]
  | claimNFT ms bt =>
    unfold applyCall applyCallE
    simp only []
    cases hres : claimNFT st ms bt with
    | error e => rfl
    | ok st' =>
      obtain ⟨-, -, -, -, -, -, -, -, -, -, -, hpz⟩ :=
        claimNFT_ok_elim st ms bt st' hres
      rw [hpz]

/-- A puzzle marked active stays active across any single call. -/
theorem applyCall_puzzle_active_mono (env : SigEnv) (c : Call)
    (st : ContractState) (id : Nat) (h : (st.puzzles id).active = true) :
    ((applyCall env c st).puzzles id).active = true := by
  by_cases hw : isSetPuzzleHashAt c id
  · cases c with
    | setPuzzleHash ms pid hs bp =>
      unfold applyCall applyCallE
      simp only []
      cases hres : setPuzzleHash st ms pid hs bp with
      | error e => exact h
      | ok st' =>
        obtain ⟨-, -, -, hpz⟩ := setPuzzleHash_ok_fields st ms pid hs bp st' hres
        rw [hpz]
        unfold updMap
        split
        · rfl
        · exact h
    | setPuzzleCreator ms cr b => exact absurd hw (by simp [isSetPuzzleHashAt])
    | setAvsAddress ms a => exact absurd hw (by simp [isSetPuzzleHashAt])
    | setAvsSigner ms a => exact absurd hw (by simp [isSetPuzzleHashAt])
    | startGame ms bt d => exact absurd hw (by simp [isSetPuzzleHashAt])
    | endGame ms => exact absurd hw (by simp [isSetPuzzleHashAt])
    | submitResult ms bt pl pid c tr sig =>
      exact absurd hw (by simp [isSetPuzzleHashAt])
    | finalizeRanks bt => exact absurd hw (by simp [isSetPuzzleHashAt])
    | claimNFT ms bt => exact absurd hw (by simp [isSetPuzzleHashAt])
  · rw [applyCall_puzzles_preserved env c st id hw]
    exact h

/-- A puzzle marked active stays active across any trace. -/
theorem applyTrace_puzzle_active_mono (env : SigEnv) (cs : List Call) :
    ∀ (st : ContractState) (id : Nat), (st.puzzles id).active = true →
    ((applyTrace env cs st).puzzles id).active = true := by
  induction cs with
  | nil => intro st id h; exact h
  | cons c rest ih =>
    intro st id h
    exact ih _ id (applyCall_puzzle_active_mono env c st id h)

/-- A puzzle that was never written stays inactive across any trace. -/
theorem applyTrace_puzzle_inactive (env : SigEnv) (cs : List Call) :
    ∀ (st : ContractState) (id : Nat), (st.puzzles id).active = false →
    (∀ c ∈ cs, ¬ isSetPuzzleHashAt c id) →
    ((applyTrace env cs st).puzzles id).active = false := by
  induction cs with
  | nil => intro st id h _; exact h
  | cons c rest ih =>
    intro st id h hnone
    have hpres := applyCall_puzzles_preserved env c st id
      (hnone c (List.mem_cons_self c rest))
    refine ih _ id ?_ ?_
    · rw [hpres]
      exact h
    · intro c2 hc2
      exact hnone c2 (List.mem_cons_of_mem c hc2)

/-- C10: no operation ever clears a puzzle's `active` flag: `setPuzzleHash`
is the only writer of puzzle entries and always writes `active = true`, so
an active puzzle stays active across every call and every trace; a puzzle
id that no call ever wrote stays inactive; and `submitResult` can never
succeed on an inactive puzzle id (the puzzle-not-active rejection concerns
only ids that were never set). -/
theorem C10_puzzle_active_monotone :
    (∀ (env : SigEnv) (c : Call) (st : ContractState) (id : Nat),
      (st.puzzles id).active = true →
      ((applyCall env c st).puzzles id).active = true) ∧
    (∀ (env : SigEnv) (cs : List Call) (st : ContractState) (id : Nat),
      (st.puzzles id).active = true →
      ((applyTrace env cs st).puzzles id).active = true) ∧
    (∀ (st : ContractState) (ms pid hs bp : Nat) (st' : ContractState),
      setPuzzleHash st ms pid hs bp = .ok st' →
      (st'.puzzles pid).active = true) ∧
    (∀ (env : SigEnv) (cs : List Call) (st : ContractState) (id : Nat),
      (st.puzzles id).active = false →
      (∀ c ∈ cs, ¬ isSetPuzzleHashAt c id) →
      ((applyTrace env cs st).puzzles id).active = false) ∧
    (∀ (env : SigEnv) (st : ContractState)
      (msgSender blockTimestamp player puzzleId : Nat) (correct : Bool)
      (timeRemaining signature : Nat),
      (st.puzzles puzzleId).active = false →
      ∀ st', submitResult env st msgSender blockTimestamp player puzzleId correct
        timeRemaining signature ≠ .ok st') := by
  refine ⟨applyCall_puzzle_active_mono, applyTrace_puzzle_active_mono, ?_,
    applyTrace_puzzle_inactive, ?_⟩
  · intro st ms pid hs bp st' hok
    obtain ⟨-, -, -, hpz⟩ := setPuzzleHash_ok_fields st ms pid hs bp st' hok
    rw [hpz]
    unfold updMap
    rw [if_pos rfl]
  · intro env st msgSender blockTimestamp player puzzleId correct tr sig hina
    exact submitResult_guard_reverts env st msgSender blockTimestamp player
      puzzleId correct tr sig (Or.inr hina)

theorem C10_puzzle_active_monotone_witness :
    ((applyCall testEnv (Call.endGame 1) testActive).puzzles 0).active = true ∧
    ((applyTrace testEnv [Call.endGame 1] testActive).puzzles 5).active = false ∧
    (∀ st', submitResult testEnv testActive 5 10 3 5 true 100 7 ≠ .ok st') :=
  ⟨C10_puzzle_active_monotone.1 testEnv (Call.endGame 1) testActive 0 (by decide),
   C10_puzzle_active_monotone.2.2.2.1 testEnv [Call.endGame 1] testActive 5
     (by decide) (by intro c hc; simp at hc; subst hc; simp [isSetPuzzleHashAt]),
   C10_puzzle_active_monotone.2.2.2.2 testEnv testActive 5 10 3 5 true 100 7
     (by decide)⟩
